import Mathlib

/-!
Verification development for the wisefood-api Meal Plan Store
(`src/api/v1/meal_plans.py` together with the ORM rows of `src/sql.py`).

Shallow embedding conventions:
* String ids (member ids, plan ids, household ids) are modelled as `Nat`
  with decidable equality; `uuid4()` is modelled by caller-supplied fresh
  numbers (`freshBase`, consecutive values for the several rows one call
  creates).
* Calendar dates (`applied_on`, `target_date`, `date.today()`) and
  timestamps (`created_at`, `datetime.now`) are modelled as `Nat` with the
  usual order; only comparisons matter to the code.
* The JSONB meal payloads (`breakfast`, `lunch`, `dinner`) are an opaque
  type parameter `α` with decidable equality — the code only ever compares
  them for equality.
* The database session is modelled as explicit state passing on a `DB`
  value; each operation is the whole transaction, so a raised exception
  (an `Except.error`) commits nothing: the caller keeps the pre-state.
* SQL `ORDER BY x DESC, y DESC` is modelled by `List.insertionSort` with
  the corresponding descending relation; SQL row sets are lists.
-/

namespace WiseFood

/-- Row of `wisefood.household_member` (`sql.py`), restricted to the two
columns the meal-plan code reads: primary key and household. -/
structure Member where
  id : Nat
  household_id : Nat
deriving DecidableEq, Repr

/-- Row of `wisefood.meal_plan` (`sql.py`, class `MealPlan`). -/
structure MealPlan (α : Type) where
  id : Nat
  household_id : Nat
  applied_on : Nat
  source_meal_plan_id : Option Nat
  source_created_at : Option Nat
  breakfast : α
  lunch : α
  dinner : α
  reasoning : Option Nat
  created_at : Nat
deriving DecidableEq, Repr

/-- Row of `wisefood.meal_plan_member` (`sql.py`, class `MealPlanMember`). -/
structure MealPlanMember where
  id : Nat
  meal_plan_id : Nat
  member_id : Nat
deriving DecidableEq, Repr

/-- The relational state the three operations read and write. -/
structure DB (α : Type) where
  members : List Member
  plans : List (MealPlan α)
  assignments : List MealPlanMember
deriving DecidableEq, Repr

/-- The `meal_plan_spec` dict passed to `store_for_members`: keys `id`
(optional source plan id), the three meal payloads, optional `reasoning`,
and optional `created_at` (already parsed; the code's ISO-string parsing
is outside the embedding). -/
structure MealPlanSpec (α : Type) where
  id : Option Nat
  breakfast : α
  lunch : α
  dinner : α
  reasoning : Option Nat
  created_at : Option Nat
deriving DecidableEq, Repr

/-- The exception classes of `exceptions.py` that the meal-plan code
raises: `NotFoundError`, `ConflictError`, `DataError`. -/
inductive ErrorKind where
  | notFound
  | conflict
  | dataError
deriving DecidableEq, Repr

/-- One constructor per `raise` site in `meal_plans.py`, carrying the data
interpolated into the Python detail message.  `internalError` stands for
`scalar_one` failing, which the code does not catch. -/
inductive ApiError where
  | membersNotFound (missing : List Nat)
  | membersNotSameHousehold
  | pastDate (target_date : Nat)
  | differentPlanExists (target_date : Nat) (member_ids : List Nat)
  | memberNotFound (member_id : Nat)
  | mealPlanNotFound (meal_plan_id : Nat)
  | mealPlanNotFoundForMember (meal_plan_id : Nat) (member_id : Nat)
  | mealPlanNotAssigned (meal_plan_id : Nat) (member_id : Nat)
  | noMealPlanForDate (member_id : Nat) (target_date : Nat)
  | internalError
deriving DecidableEq, Repr

/-- Which exception class each raise site uses in `meal_plans.py`. -/
def ApiError.kind : ApiError → ErrorKind
  | .membersNotFound _ => .notFound
  | .membersNotSameHousehold => .conflict
  | .pastDate _ => .dataError
  | .differentPlanExists _ _ => .conflict
  | .memberNotFound _ => .notFound
  | .mealPlanNotFound _ => .notFound
  | .mealPlanNotFoundForMember _ _ => .notFound
  | .mealPlanNotAssigned _ _ => .notFound
  | .noMealPlanForDate _ _ => .notFound
  | .internalError => .dataError

/-- The dict returned by `MealPlan.to_dict(include_member_ids=True,
current_member_id=...)` in `sql.py` (the only form the three operations
use). -/
structure PlanRecord (α : Type) where
  id : Nat
  household_id : Nat
  date : Nat
  source_meal_plan_id : Option Nat
  source_created_at : Option Nat
  breakfast : α
  lunch : α
  dinner : α
  reasoning : Option Nat
  created_at : Nat
  applies_to_member_ids : List Nat
  other_member_ids : List Nat
deriving DecidableEq, Repr

/-- The dict returned by `MealPlanEntity.revoke`. -/
structure RevokeResult where
  meal_plan_id : Nat
  revoked_for_member_id : Nat
  revoked_for_all_members : Bool
  meal_plan_deleted : Bool
deriving DecidableEq, Repr

/-- Python's `sorted(set(xs))`: distinct elements in ascending order. -/
def sortedDedup (xs : List Nat) : List Nat :=
  List.insertionSort (· ≤ ·) xs.dedup

/-- `MealPlanEntity._matches_incoming_plan`: exact equality on the five
content fields; stored-row timestamps and ids are not compared. -/
def matchesIncomingPlan [DecidableEq α] (existing_plan : MealPlan α)
    (spec : MealPlanSpec α) : Bool :=
  decide (existing_plan.source_meal_plan_id = spec.id) &&
  decide (existing_plan.breakfast = spec.breakfast) &&
  decide (existing_plan.lunch = spec.lunch) &&
  decide (existing_plan.dinner = spec.dinner) &&
  decide (existing_plan.reasoning = spec.reasoning)

/-- `ORDER BY MealPlan.created_at DESC, MealPlan.id DESC` on joined
`(member_id, plan)` rows: `rowRel a b` says `a` sorts no later than `b`. -/
def rowRel (a b : Nat × MealPlan α) : Prop :=
  b.2.created_at < a.2.created_at ∨
    (b.2.created_at = a.2.created_at ∧ b.2.id ≤ a.2.id)

instance : DecidableRel (rowRel (α := α)) := fun a b => by
  unfold rowRel; infer_instance

instance : IsTotal (Nat × MealPlan α) rowRel where
  total a b := by
    unfold rowRel
    rcases Nat.lt_trichotomy a.2.created_at b.2.created_at with h | h | h
    · exact Or.inr (Or.inl h)
    · rcases Nat.le_total a.2.id b.2.id with h2 | h2
      · exact Or.inr (Or.inr ⟨h, h2⟩)
      · exact Or.inl (Or.inr ⟨h.symm, h2⟩)
    · exact Or.inl (Or.inl h)

instance : IsTrans (Nat × MealPlan α) rowRel where
  trans a b c hab hbc := by
    unfold rowRel at *
    rcases hab with h1 | ⟨h1, h1'⟩
    · rcases hbc with h2 | ⟨h2, h2'⟩
      · exact Or.inl (Nat.lt_trans h2 h1)
      · exact Or.inl (h2 ▸ h1)
    · rcases hbc with h2 | ⟨h2, h2'⟩
      · exact Or.inl (h1 ▸ h2)
      · exact Or.inr ⟨h2.trans h1, Nat.le_trans h2' h1'⟩

/-- `ORDER BY MealPlan.created_at DESC` (the `get_for_member_and_date`
query). -/
def createdRel (a b : MealPlan α) : Prop :=
  b.created_at ≤ a.created_at

instance : DecidableRel (createdRel (α := α)) := fun a b => by
  unfold createdRel; infer_instance

instance : IsTotal (MealPlan α) createdRel where
  total a b := Nat.le_total b.created_at a.created_at

instance : IsTrans (MealPlan α) createdRel where
  trans _ _ _ hab hbc := Nat.le_trans hbc hab

/-- `MealPlanEntity._get_members_in_same_household`: load the rows whose id
is in `member_ids`; not-found (naming the sorted missing ids) if any id
did not resolve; conflict if the resolved members span more than one
household. -/
def getMembersInSameHousehold (db : DB α) (member_ids : List Nat) :
    Except ApiError (List Member) :=
  let members := db.members.filter fun m => member_ids.contains m.id
  if members.length ≠ member_ids.dedup.length then
    .error (.membersNotFound
      (sortedDedup (member_ids.filter fun i => !(members.any fun m => m.id == i))))
  else if (members.map Member.household_id).dedup.length ≠ 1 then
    .error .membersNotSameHousehold
  else
    .ok members

/-- The candidate query of `store_for_members`: join assignments to plans,
keep rows for this household and date whose member is targeted, ordered by
creation time descending then plan id descending. -/
def existingRows (db : DB α) (household_id target_date : Nat)
    (target_member_ids : List Nat) : List (Nat × MealPlan α) :=
  List.insertionSort rowRel
    (db.assignments.flatMap fun a =>
      db.plans.filterMap fun p =>
        if p.id = a.meal_plan_id ∧ p.household_id = household_id ∧
            p.applied_on = target_date ∧ a.member_id ∈ target_member_ids
        then some (a.member_id, p) else none)

/-- `matching_member_plan_ids.setdefault(member_id, []).append(plan_id)`:
append to the member's list, inserting the key at the end on first use
(Python dicts preserve insertion order). -/
def addMatch (acc : List (Nat × List Nat)) (member_id plan_id : Nat) :
    List (Nat × List Nat) :=
  match acc with
  | [] => [(member_id, [plan_id])]
  | (k, v) :: rest =>
    if k = member_id then (k, v ++ [plan_id]) :: rest
    else (k, v) :: addMatch rest member_id plan_id

/-- The dict built by the loop over the candidate rows, restricted to the
matching rows (non-matching rows feed the conflict set instead). -/
def matchingMemberPlanIds [DecidableEq α] (spec : MealPlanSpec α)
    (rows : List (Nat × MealPlan α)) : List (Nat × List Nat) :=
  (rows.filter fun r => matchesIncomingPlan r.2 spec).foldl
    (fun acc r => addMatch acc r.1 r.2.id) []

/-- `sorted(conflicting_member_ids)`: the members among the candidate rows
whose existing plan content differs from the incoming content. -/
def conflictingMemberIds [DecidableEq α] (spec : MealPlanSpec α)
    (rows : List (Nat × MealPlan α)) : List Nat :=
  sortedDedup ((rows.filter fun r => !(matchesIncomingPlan r.2 spec)).map Prod.fst)

/-- `member_to_plan_ids.get(member_id, [])`. -/
def planIdsOf (member_id : Nat) (dict : List (Nat × List Nat)) : List Nat :=
  ((dict.find? fun kv => kv.1 == member_id).map Prod.snd).getD []

/-- `MealPlanEntity._pick_reusable_plan_id`: first plan id recorded for the
requesting member, else the first plan id of any entry, else none. -/
def pickReusablePlanId (requested_member_id : Nat)
    (member_to_plan_ids : List (Nat × List Nat)) : Option Nat :=
  match planIdsOf requested_member_id member_to_plan_ids with
  | p :: _ => some p
  | [] => member_to_plan_ids.findSome? fun kv => kv.2.head?

/-- The eager-loaded `meal_plan.assignments` relationship: all assignment
rows of one plan. -/
def planAssignments (db : DB α) (plan_id : Nat) : List MealPlanMember :=
  db.assignments.filter fun a => a.meal_plan_id == plan_id

/-- `MealPlan.to_dict(include_member_ids=True, current_member_id=...)`
(`sql.py`): the row's columns plus the sorted assigned member ids, and
those ids with the current member filtered out. -/
def MealPlan.toDict (p : MealPlan α) (assignments : List MealPlanMember)
    (current_member_id : Option Nat) : PlanRecord α :=
  let member_ids := List.insertionSort (· ≤ ·)
    (assignments.map MealPlanMember.member_id)
  { id := p.id
    household_id := p.household_id
    date := p.applied_on
    source_meal_plan_id := p.source_meal_plan_id
    source_created_at := p.source_created_at
    breakfast := p.breakfast
    lunch := p.lunch
    dinner := p.dinner
    reasoning := p.reasoning
    created_at := p.created_at
    applies_to_member_ids := member_ids
    other_member_ids :=
      match current_member_id with
      | some c => member_ids.filter fun mid => mid != c
      | none => member_ids }

/-- `sorted(set(target_member_ids) - members_with_existing_assignments)`. -/
def membersWithoutAssignments (target_member_ids : List Nat)
    (rows : List (Nat × MealPlan α)) : List Nat :=
  sortedDedup (target_member_ids.filter fun m => !(rows.any fun r => r.1 == m))

/-- The write phase of `store_for_members` (everything after the conflict
check): reuse a matching plan id if one exists, linking only the members
without an existing assignment; otherwise insert a new `MealPlan` row with
the incoming content and link every target member.  Finally re-select the
plan with its assignments and return its dict. -/
def storeWrite [DecidableEq α] (db : DB α) (now freshBase : Nat)
    (household_id target_date : Nat) (spec : MealPlanSpec α)
    (target_member_ids : List Nat) (requested_member_id : Nat)
    (rows : List (Nat × MealPlan α)) : Except ApiError (PlanRecord α × DB α) :=
  let reusable := pickReusablePlanId requested_member_id
    (matchingMemberPlanIds spec rows)
  let unassigned := membersWithoutAssignments target_member_ids rows
  let step : Nat × DB α :=
    match reusable with
    | some pid =>
      (pid,
       { db with assignments := db.assignments ++
          (unassigned.enum.map fun im =>
            { id := freshBase + im.1, meal_plan_id := pid, member_id := im.2 }) })
    | none =>
      let plan : MealPlan α :=
        { id := freshBase
          household_id := household_id
          applied_on := target_date
          source_meal_plan_id := spec.id
          source_created_at := spec.created_at
          breakfast := spec.breakfast
          lunch := spec.lunch
          dinner := spec.dinner
          reasoning := spec.reasoning
          created_at := now }
      (freshBase,
       { db with
          plans := db.plans ++ [plan]
          assignments := db.assignments ++
            (target_member_ids.enum.map fun im =>
              { id := freshBase + 1 + im.1, meal_plan_id := freshBase,
                member_id := im.2 }) })
  match step.2.plans.find? fun p => p.id == step.1 with
  | some stored_plan =>
    .ok (stored_plan.toDict (planAssignments step.2 step.1)
          (some requested_member_id), step.2)
  | none => .error .internalError

/-- `sorted(set([requested_member_id, *additional_member_ids]))`. -/
def targetsOf (requested_member_id : Nat) (additional_member_ids : List Nat) :
    List Nat :=
  sortedDedup (requested_member_id :: additional_member_ids)

/-- `MealPlanEntity.store_for_members`.  `today` is `date.today()`, `now`
the commit-time `datetime.now` used for the new row's `created_at`, and
`freshBase` the base of the fresh uuids this call draws. -/
def store_for_members [DecidableEq α] (db : DB α) (today now freshBase : Nat)
    (requested_member_id target_date : Nat) (meal_plan_spec : MealPlanSpec α)
    (additional_member_ids : List Nat) :
    Except ApiError (PlanRecord α × DB α) :=
  if target_date < today then .error (.pastDate target_date)
  else
    let target_member_ids := targetsOf requested_member_id additional_member_ids
    match getMembersInSameHousehold db target_member_ids with
    | .error e => .error e
    | .ok members =>
      let household_id := (members.headD { id := 0, household_id := 0 }).household_id
      let rows := existingRows db household_id target_date target_member_ids
      let conflicting := conflictingMemberIds meal_plan_spec rows
      if conflicting ≠ [] then
        .error (.differentPlanExists target_date conflicting)
      else
        storeWrite db now freshBase household_id target_date meal_plan_spec
          target_member_ids requested_member_id rows

/-- `MealPlanEntity.get_for_member_and_date`: most recently created plan of
that date carrying an assignment for the member, or not-found. -/
def get_for_member_and_date (db : DB α) (member_id target_date : Nat) :
    Except ApiError (PlanRecord α) :=
  let plans := List.insertionSort createdRel
    (db.plans.filter fun p => decide (p.applied_on = target_date) &&
      (db.assignments.any fun a =>
        a.meal_plan_id == p.id && a.member_id == member_id))
  match plans.head? with
  | none => .error (.noMealPlanForDate member_id target_date)
  | some plan =>
    .ok (plan.toDict (planAssignments db plan.id) (some member_id))

/-- `MealPlanEntity.revoke`.  Deleting a `MealPlan` row also deletes its
assignment rows (the `ON DELETE CASCADE` foreign key of
`meal_plan_member.meal_plan_id`). -/
def revoke (db : DB α) (member_id meal_plan_id : Nat)
    (revoke_for_all_members : Bool) :
    Except ApiError (RevokeResult × DB α) :=
  match db.members.find? fun m => m.id == member_id with
  | none => .error (.memberNotFound member_id)
  | some member =>
    match db.plans.find? fun p => p.id == meal_plan_id with
    | none => .error (.mealPlanNotFound meal_plan_id)
    | some meal_plan =>
      if meal_plan.household_id ≠ member.household_id then
        .error (.mealPlanNotFoundForMember meal_plan_id member_id)
      else if !((planAssignments db meal_plan_id).any fun a =>
          a.member_id == member_id) then
        .error (.mealPlanNotAssigned meal_plan_id member_id)
      else if revoke_for_all_members then
        .ok ({ meal_plan_id := meal_plan_id
               revoked_for_member_id := member_id
               revoked_for_all_members := true
               meal_plan_deleted := true },
             { db with
                plans := db.plans.filter fun p => p.id != meal_plan_id
                assignments := db.assignments.filter fun a =>
                  a.meal_plan_id != meal_plan_id })
      else
        let assignments2 := db.assignments.filter fun a =>
          !(a.meal_plan_id == meal_plan_id && a.member_id == member_id)
        if (assignments2.filter fun a => a.meal_plan_id == meal_plan_id).isEmpty then
          .ok ({ meal_plan_id := meal_plan_id
                 revoked_for_member_id := member_id
                 revoked_for_all_members := false
                 meal_plan_deleted := true },
               { db with
                  plans := db.plans.filter fun p => p.id != meal_plan_id
                  assignments := assignments2 })
        else
          .ok ({ meal_plan_id := meal_plan_id
                 revoked_for_member_id := member_id
                 revoked_for_all_members := false
                 meal_plan_deleted := false },
               { db with assignments := assignments2 })

end WiseFood

namespace WiseFood

variable {α : Type}

/-! ### Basic lemmas about the query helpers -/

theorem mem_sortedDedup {a : Nat} {xs : List Nat} :
    a ∈ sortedDedup xs ↔ a ∈ xs := by
  unfold sortedDedup
  rw [List.mem_insertionSort, List.mem_dedup]

theorem sortedDedup_sorted (xs : List Nat) :
    (sortedDedup xs).Sorted (· ≤ ·) :=
  List.sorted_insertionSort _ _

theorem sortedDedup_nodup (xs : List Nat) : (sortedDedup xs).Nodup :=
  ((List.perm_insertionSort _ _).nodup_iff).mpr (List.nodup_dedup xs)

theorem sortedDedup_eq_nil {xs : List Nat} : sortedDedup xs = [] ↔ xs = [] := by
  unfold sortedDedup
  constructor
  · intro h
    have hperm := List.perm_insertionSort (α := Nat) (· ≤ ·) xs.dedup
    rw [h] at hperm
    exact (List.dedup_eq_nil xs).mp hperm.symm.eq_nil
  · intro h
    subst h
    rfl

theorem mem_targetsOf {a req : Nat} {adds : List Nat} :
    a ∈ targetsOf req adds ↔ a = req ∨ a ∈ adds := by
  unfold targetsOf
  rw [mem_sortedDedup, List.mem_cons]

theorem targetsOf_ne_nil (req : Nat) (adds : List Nat) :
    targetsOf req adds ≠ [] := by
  intro h
  have : req ∈ targetsOf req adds := mem_targetsOf.mpr (Or.inl rfl)
  rw [h] at this
  exact absurd this (List.not_mem_nil req)

theorem mem_existingRows {db : DB α} {hh d : Nat} {ts : List Nat}
    {r : Nat × MealPlan α} :
    r ∈ existingRows db hh d ts ↔
      ∃ a ∈ db.assignments, ∃ p ∈ db.plans,
        p.id = a.meal_plan_id ∧ p.household_id = hh ∧ p.applied_on = d ∧
        a.member_id ∈ ts ∧ r = (a.member_id, p) := by
  unfold existingRows
  rw [List.mem_insertionSort]
  simp only [List.mem_flatMap, List.mem_filterMap]
  constructor
  · rintro ⟨a, ha, p, hp, hif⟩
    by_cases hc : p.id = a.meal_plan_id ∧ p.household_id = hh ∧
        p.applied_on = d ∧ a.member_id ∈ ts
    · rw [if_pos hc] at hif
      obtain ⟨h1, h2, h3, h4⟩ := hc
      exact ⟨a, ha, p, hp, h1, h2, h3, h4, (Option.some.inj hif).symm⟩
    · rw [if_neg hc] at hif
      exact absurd hif (by simp)
  · rintro ⟨a, ha, p, hp, h1, h2, h3, h4, rfl⟩
    exact ⟨a, ha, p, hp, by rw [if_pos ⟨h1, h2, h3, h4⟩]⟩

theorem mem_conflictingMemberIds [DecidableEq α] {spec : MealPlanSpec α}
    {rows : List (Nat × MealPlan α)} {m : Nat} :
    m ∈ conflictingMemberIds spec rows ↔
      ∃ r ∈ rows, r.1 = m ∧ matchesIncomingPlan r.2 spec = false := by
  unfold conflictingMemberIds
  rw [mem_sortedDedup]
  simp only [List.mem_map, List.mem_filter]
  constructor
  · rintro ⟨r, ⟨hr, hmatch⟩, rfl⟩
    exact ⟨r, hr, rfl, by simpa using hmatch⟩
  · rintro ⟨r, hr, rfl, hmatch⟩
    exact ⟨r, ⟨hr, by simpa using hmatch⟩, rfl⟩

theorem conflictingMemberIds_eq_nil [DecidableEq α] {spec : MealPlanSpec α}
    {rows : List (Nat × MealPlan α)} :
    conflictingMemberIds spec rows = [] ↔
      ∀ r ∈ rows, matchesIncomingPlan r.2 spec = true := by
  unfold conflictingMemberIds
  rw [sortedDedup_eq_nil, List.map_eq_nil_iff, List.filter_eq_nil_iff]
  constructor
  · intro h r hr
    have := h r hr
    simpa using this
  · intro h r hr
    simp [h r hr]

end WiseFood

namespace WiseFood

variable {α : Type}

/-! ### Concrete data used by the witness theorems -/

/-- An incoming plan spec with payload type `Nat`. -/
def exSpecA : MealPlanSpec Nat := ⟨none, 1, 2, 3, none, none⟩

/-- A second, different incoming plan spec. -/
def exSpecB : MealPlanSpec Nat := ⟨none, 4, 5, 6, none, none⟩

/-- Members 1 and 2 share household 10; member 3 lives in household 20. -/
def exMembers : List Member := [⟨1, 10⟩, ⟨2, 10⟩, ⟨3, 20⟩]

/-- A state with no plans at all. -/
def exEmptyDB : DB Nat := ⟨exMembers, [], []⟩

/-- A stored plan with the content of `exSpecA` on date 5 in household 10. -/
def exPlanA : MealPlan Nat := ⟨100, 10, 5, none, none, 1, 2, 3, none, 0⟩

/-- `exPlanA` assigned to members 1 and 2. -/
def exSharedDB : DB Nat :=
  ⟨exMembers, [exPlanA], [⟨50, 100, 1⟩, ⟨51, 100, 2⟩]⟩

/-! ### C8: past dates are rejected before anything else -/

/-- C8: every `store_for_members` call whose `target_date` is strictly
earlier than the server's current date is rejected with the
data-validation error, whatever the member ids are; the check precedes
member resolution and nothing is written (an error commits nothing in the
transactional model). -/
theorem store_past_date_rejected [DecidableEq α] (db : DB α)
    (today now freshBase requested_member_id target_date : Nat)
    (spec : MealPlanSpec α) (additional_member_ids : List Nat)
    (h : target_date < today) :
    store_for_members db today now freshBase requested_member_id target_date
      spec additional_member_ids = .error (.pastDate target_date) ∧
    (ApiError.pastDate target_date).kind = ErrorKind.dataError := by
  constructor
  · unfold store_for_members
    rw [if_pos h]
  · rfl

/-- Witness for C8: storing for date 4 when today is 5 fails even though
member 99 does not exist. -/
theorem store_past_date_rejected_witness :
    4 < 5 ∧
    (store_for_members exEmptyDB 5 7 200 1 4 exSpecA [99] =
        .error (.pastDate 4) ∧
      (ApiError.pastDate 4).kind = ErrorKind.dataError) :=
  ⟨by decide, store_past_date_rejected exEmptyDB 5 7 200 1 4 exSpecA [99] (by decide)⟩

/-! ### C7: revoke precondition failures are all not-found -/

/-- C7: `revoke` fails with a not-found error when the member does not
resolve, when the plan does not resolve, when the plan belongs to a
different household than the member (same error kind as a nonexistent
plan, so existence does not leak across households), and when the member
is not assigned to the plan; every error `revoke` can return is of the
not-found kind, and an error commits nothing in the transactional model. -/
theorem revoke_not_found_cases (db : DB α) (member_id meal_plan_id : Nat)
    (all : Bool) :
    ((∀ mm ∈ db.members, mm.id ≠ member_id) →
      revoke db member_id meal_plan_id all =
        .error (.memberNotFound member_id)) ∧
    (∀ member, db.members.find? (fun m => m.id == member_id) = some member →
      (∀ p ∈ db.plans, p.id ≠ meal_plan_id) →
      revoke db member_id meal_plan_id all =
        .error (.mealPlanNotFound meal_plan_id)) ∧
    (∀ member plan,
      db.members.find? (fun m => m.id == member_id) = some member →
      db.plans.find? (fun p => p.id == meal_plan_id) = some plan →
      plan.household_id ≠ member.household_id →
      revoke db member_id meal_plan_id all =
        .error (.mealPlanNotFoundForMember meal_plan_id member_id) ∧
      (ApiError.mealPlanNotFoundForMember meal_plan_id member_id).kind =
        (ApiError.mealPlanNotFound meal_plan_id).kind) ∧
    (∀ member plan,
      db.members.find? (fun m => m.id == member_id) = some member →
      db.plans.find? (fun p => p.id == meal_plan_id) = some plan →
      plan.household_id = member.household_id →
      (∀ a ∈ db.assignments, a.meal_plan_id = meal_plan_id →
        a.member_id ≠ member_id) →
      revoke db member_id meal_plan_id all =
        .error (.mealPlanNotAssigned meal_plan_id member_id)) ∧
    (∀ e, revoke db member_id meal_plan_id all = .error e →
      e.kind = ErrorKind.notFound) := by
  refine ⟨?_, ?_, ?_, ?_, ?_⟩
  · intro hnone
    have h1 : db.members.find? (fun m => m.id == member_id) = none :=
      List.find?_eq_none.mpr fun m hm => by simpa using hnone m hm
    unfold revoke
    rw [h1]
  · intro member hmem hnoplan
    have h2 : db.plans.find? (fun p => p.id == meal_plan_id) = none :=
      List.find?_eq_none.mpr fun p hp => by simpa using hnoplan p hp
    unfold revoke
    rw [hmem, h2]
  · intro member plan hmem hplan hne
    refine ⟨?_, rfl⟩
    unfold revoke
    rw [hmem, hplan]
    dsimp only
    rw [if_pos hne]
  · intro member plan hmem hplan heq hnotass
    have hass : ((planAssignments db meal_plan_id).any
        fun a => a.member_id == member_id) = false := by
      rw [List.any_eq_false]
      intro a ha
      have hmem2 := List.mem_filter.mp ha
      simp only [beq_iff_eq] at hmem2 ⊢
      exact hnotass a hmem2.1 hmem2.2
    unfold revoke
    rw [hmem, hplan]
    dsimp only
    rw [if_neg (fun hne => hne heq), hass]
    exact if_pos rfl
  · intro e herr
    unfold revoke at herr
    simp only [] at herr
    split at herr
    · exact (Except.error.inj herr) ▸ rfl
    · split at herr
      · exact (Except.error.inj herr) ▸ rfl
      · split at herr
        · exact (Except.error.inj herr) ▸ rfl
        · split at herr
          · exact (Except.error.inj herr) ▸ rfl
          · split at herr
            · exact absurd herr (by simp)
            · split at herr
              · exact absurd herr (by simp)
              · exact absurd herr (by simp)

/-- Witness for C7: revoking for the nonexistent member 9 is a not-found
failure. -/
theorem revoke_not_found_cases_witness :
    revoke exSharedDB 9 100 false = .error (.memberNotFound 9) :=
  (revoke_not_found_cases exSharedDB 9 100 false).1 (by decide)

end WiseFood

namespace WiseFood

variable {α : Type}

/-! ### C3: revoke success behavior -/

/-- C3: a successful `revoke` echoes the plan id, member id and flag as
given; with `revoke_for_all_members` it deletes the plan row and every
assignment of the plan and reports `meal_plan_deleted = true`; otherwise
it deletes exactly that member's assignment row and deletes the plan row
(reporting `meal_plan_deleted = true`) precisely when no assignment rows
remain, leaving the plan intact with `meal_plan_deleted = false` when at
least one remains. -/
theorem revoke_success_behavior (db : DB α) (member_id meal_plan_id : Nat)
    (all : Bool) (res : RevokeResult) (db2 : DB α)
    (h : revoke db member_id meal_plan_id all = .ok (res, db2)) :
    res.meal_plan_id = meal_plan_id ∧
    res.revoked_for_member_id = member_id ∧
    res.revoked_for_all_members = all ∧
    (all = true →
      res.meal_plan_deleted = true ∧
      db2.plans = db.plans.filter (fun p => p.id != meal_plan_id) ∧
      db2.assignments =
        db.assignments.filter (fun a => a.meal_plan_id != meal_plan_id) ∧
      db2.members = db.members) ∧
    (all = false →
      db2.assignments = db.assignments.filter
        (fun a => !(a.meal_plan_id == meal_plan_id && a.member_id == member_id)) ∧
      (res.meal_plan_deleted = true ↔
        ∀ a ∈ db.assignments, a.meal_plan_id = meal_plan_id →
          a.member_id = member_id) ∧
      (res.meal_plan_deleted = true →
        db2.plans = db.plans.filter (fun p => p.id != meal_plan_id)) ∧
      (res.meal_plan_deleted = false → db2.plans = db.plans) ∧
      db2.members = db.members) := by
  unfold revoke at h
  simp only [] at h
  split at h
  · exact absurd h (by simp)
  split at h
  · exact absurd h (by simp)
  split at h
  · exact absurd h (by simp)
  split at h
  · exact absurd h (by simp)
  split at h
  case isTrue hall =>
    obtain ⟨rfl, rfl⟩ : _ ∧ _ := by
      have h2 := Except.ok.inj h
      exact ⟨congrArg Prod.fst h2, congrArg Prod.snd h2⟩
    refine ⟨rfl, rfl, hall.symm, ?_, ?_⟩
    · intro _
      exact ⟨rfl, rfl, rfl, rfl⟩
    · intro hf
      rw [hall] at hf
      exact absurd hf (by simp)
  case isFalse hall =>
    have hf : all = false := by
      cases all
      · rfl
      · exact absurd rfl hall
    split at h
    case isTrue hE =>
      obtain ⟨rfl, rfl⟩ : _ ∧ _ := by
        have h2 := Except.ok.inj h
        exact ⟨congrArg Prod.fst h2, congrArg Prod.snd h2⟩
      refine ⟨rfl, rfl, hf.symm, ?_, ?_⟩
      · intro ht
        rw [hf] at ht
        exact absurd ht (by simp)
      · intro _
        refine ⟨rfl, ?_, fun _ => rfl, ?_, rfl⟩
        · have hnil := List.isEmpty_iff.mp hE
          have hall2 := List.filter_eq_nil_iff.mp hnil
          refine iff_of_true rfl ?_
          intro a ha hmeal
          by_contra hmem
          have hin : a ∈ List.filter
              (fun a => !(a.meal_plan_id == meal_plan_id &&
                a.member_id == member_id)) db.assignments := by
            rw [List.mem_filter]
            refine ⟨ha, ?_⟩
            simp [hmeal, hmem]
          have := hall2 a hin
          simp [hmeal] at this
        · intro hcontra
          exact absurd hcontra (by simp)
    case isFalse hE =>
      obtain ⟨rfl, rfl⟩ : _ ∧ _ := by
        have h2 := Except.ok.inj h
        exact ⟨congrArg Prod.fst h2, congrArg Prod.snd h2⟩
      refine ⟨rfl, rfl, hf.symm, ?_, ?_⟩
      · intro ht
        rw [hf] at ht
        exact absurd ht (by simp)
      · intro _
        refine ⟨rfl, ?_, ?_, fun _ => rfl, rfl⟩
        · refine iff_of_false (by simp) ?_
          intro hforall
          have hne : List.filter (fun a => a.meal_plan_id == meal_plan_id)
              (List.filter (fun a => !(a.meal_plan_id == meal_plan_id &&
                a.member_id == member_id)) db.assignments) ≠ [] := by
            intro hnil
            rw [← List.isEmpty_iff] at hnil
            rw [hnil] at hE
            exact absurd rfl hE
          obtain ⟨a, ha⟩ := List.exists_mem_of_ne_nil _ hne
          have h1 := List.mem_filter.mp ha
          have h2 := List.mem_filter.mp h1.1
          have hmeal : a.meal_plan_id = meal_plan_id := by
            simpa using h1.2
          have hnm : a.member_id ≠ member_id := by
            have := h2.2
            simp [hmeal] at this
            exact this
          exact hnm (hforall a h2.1 hmeal)
        · intro hcontra
          exact absurd hcontra (by simp)

/-- Witness for C3: revoking member 1 from the plan shared by members 1
and 2 (not for all members) deletes only that assignment and keeps the
plan. -/
theorem revoke_success_behavior_witness :
    (RevokeResult.mk 100 1 false false).meal_plan_id = 100 ∧
    (RevokeResult.mk 100 1 false false).revoked_for_member_id = 1 ∧
    (RevokeResult.mk 100 1 false false).revoked_for_all_members = false ∧
    (false = true →
      (RevokeResult.mk 100 1 false false).meal_plan_deleted = true ∧
      (DB.mk exMembers [exPlanA] [⟨51, 100, 2⟩]).plans =
        exSharedDB.plans.filter (fun p => p.id != 100) ∧
      (DB.mk exMembers [exPlanA] [⟨51, 100, 2⟩]).assignments =
        exSharedDB.assignments.filter (fun a => a.meal_plan_id != 100) ∧
      (DB.mk exMembers [exPlanA] [⟨51, 100, 2⟩]).members =
        exSharedDB.members) ∧
    (false = false →
      (DB.mk exMembers [exPlanA] [⟨51, 100, 2⟩]).assignments =
        exSharedDB.assignments.filter
          (fun a => !(a.meal_plan_id == 100 && a.member_id == 1)) ∧
      ((RevokeResult.mk 100 1 false false).meal_plan_deleted = true ↔
        ∀ a ∈ exSharedDB.assignments, a.meal_plan_id = 100 →
          a.member_id = 1) ∧
      ((RevokeResult.mk 100 1 false false).meal_plan_deleted = true →
        (DB.mk exMembers [exPlanA] [⟨51, 100, 2⟩]).plans =
          exSharedDB.plans.filter (fun p => p.id != 100)) ∧
      ((RevokeResult.mk 100 1 false false).meal_plan_deleted = false →
        (DB.mk exMembers [exPlanA] [⟨51, 100, 2⟩]).plans =
          exSharedDB.plans) ∧
      (DB.mk exMembers [exPlanA] [⟨51, 100, 2⟩]).members =
        exSharedDB.members) :=
  revoke_success_behavior exSharedDB 1 100 false
    (RevokeResult.mk 100 1 false false)
    (DB.mk exMembers [exPlanA] [⟨51, 100, 2⟩]) (by rfl)

end WiseFood

namespace WiseFood

variable {α : Type}

/-! ### Inversion lemmas for a successful store -/

/-- A successful `store_for_members` implies: the date check passed,
member resolution succeeded, the conflict set was empty, and the write
phase produced the result. -/
theorem store_ok_inv [DecidableEq α] {db : DB α} {today now fb req d : Nat}
    {spec : MealPlanSpec α} {adds : List Nat} {r : PlanRecord α} {db2 : DB α}
    (h : store_for_members db today now fb req d spec adds = .ok (r, db2)) :
    ¬ d < today ∧
    ∃ members, getMembersInSameHousehold db (targetsOf req adds) = .ok members ∧
      conflictingMemberIds spec (existingRows db
        (members.headD ⟨0, 0⟩).household_id d (targetsOf req adds)) = [] ∧
      storeWrite db now fb (members.headD ⟨0, 0⟩).household_id d spec
        (targetsOf req adds) req
        (existingRows db (members.headD ⟨0, 0⟩).household_id d
          (targetsOf req adds)) = .ok (r, db2) := by
  unfold store_for_members at h
  split at h
  · exact absurd h (by simp)
  rename_i hd
  simp only [] at h
  split at h
  · exact absurd h (by simp)
  rename_i members hm
  split at h
  · exact absurd h (by simp)
  rename_i hc
  exact ⟨hd, members, hm, not_not.mp hc, h⟩

/-- Write phase, reuse branch: when a reusable plan id was picked, no plan
row is created or removed, and join rows are appended exactly for the
target members without an existing assignment. -/
theorem storeWrite_reuse [DecidableEq α] {db : DB α} {now fb hh d : Nat}
    {spec : MealPlanSpec α} {targets : List Nat} {req : Nat}
    {rows : List (Nat × MealPlan α)} {pid : Nat} {r : PlanRecord α} {db2 : DB α}
    (hpick : pickReusablePlanId req (matchingMemberPlanIds spec rows) = some pid)
    (h : storeWrite db now fb hh d spec targets req rows = .ok (r, db2)) :
    db2.plans = db.plans ∧ db2.members = db.members ∧
    db2.assignments = db.assignments ++
      ((membersWithoutAssignments targets rows).enum.map fun im =>
        ⟨fb + im.1, pid, im.2⟩) ∧
    ∃ stored, db.plans.find? (fun p => p.id == pid) = some stored ∧
      stored.id = pid ∧
      r = stored.toDict (planAssignments db2 pid) (some req) := by
  unfold storeWrite at h
  rw [hpick] at h
  simp only [] at h
  split at h
  case h_1 stored hfind =>
    obtain ⟨rfl, rfl⟩ : _ ∧ _ := by
      have h2 := Except.ok.inj h
      exact ⟨congrArg Prod.fst h2, congrArg Prod.snd h2⟩
    have hid : stored.id = pid := by
      have := List.find?_some hfind
      simpa using this
    exact ⟨rfl, rfl, rfl, stored, hfind, hid, rfl⟩
  case h_2 => exact absurd h (by simp)

/-- Write phase, new-plan branch: when no reusable plan id exists, exactly
one plan row with the incoming content is appended and a join row is
appended for every target member. -/
theorem storeWrite_new [DecidableEq α] {db : DB α} {now fb hh d : Nat}
    {spec : MealPlanSpec α} {targets : List Nat} {req : Nat}
    {rows : List (Nat × MealPlan α)} {r : PlanRecord α} {db2 : DB α}
    (hpick : pickReusablePlanId req (matchingMemberPlanIds spec rows) = none)
    (h : storeWrite db now fb hh d spec targets req rows = .ok (r, db2)) :
    db2.plans = db.plans ++
      [⟨fb, hh, d, spec.id, spec.created_at, spec.breakfast, spec.lunch,
        spec.dinner, spec.reasoning, now⟩] ∧
    db2.members = db.members ∧
    db2.assignments = db.assignments ++
      (targets.enum.map fun im => ⟨fb + 1 + im.1, fb, im.2⟩) ∧
    ∃ stored, db2.plans.find? (fun p => p.id == fb) = some stored ∧
      stored.id = fb ∧
      r = stored.toDict (planAssignments db2 fb) (some req) := by
  unfold storeWrite at h
  rw [hpick] at h
  simp only [] at h
  split at h
  case h_1 stored hfind =>
    obtain ⟨rfl, rfl⟩ : _ ∧ _ := by
      have h2 := Except.ok.inj h
      exact ⟨congrArg Prod.fst h2, congrArg Prod.snd h2⟩
    have hid : stored.id = fb := by
      have := List.find?_some hfind
      simpa using this
    exact ⟨rfl, rfl, rfl, stored, hfind, hid, rfl⟩
  case h_2 => exact absurd h (by simp)

end WiseFood

namespace WiseFood

variable {α : Type}

/-! ### C4: no meal plan is ever left without assignments -/

/-- Every stored `MealPlan` row has at least one assignment row. -/
def allPlansAssigned (db : DB α) : Prop :=
  ∀ p ∈ db.plans, ∃ a ∈ db.assignments, a.meal_plan_id = p.id

instance (db : DB α) : Decidable (allPlansAssigned db) := by
  unfold allPlansAssigned
  infer_instance

/-- C4: the no-orphan invariant is preserved by every operation.  A
successful `store_for_members` either touches no plan row or creates the
new plan together with an assignment for every target member (the target
set is never empty); a successful `revoke` deletes the plan row whenever
it deletes its last assignment; `get_for_member_and_date` does not write
at all, so the pre-state invariant is the post-state invariant. -/
theorem no_orphan_plans_invariant [DecidableEq α] (db : DB α)
    (hdb : allPlansAssigned db) :
    (∀ (today now fb req d : Nat) (spec : MealPlanSpec α)
      (adds : List Nat) (r : PlanRecord α) (db2 : DB α),
      store_for_members db today now fb req d spec adds = .ok (r, db2) →
      allPlansAssigned db2) ∧
    (∀ (m pid : Nat) (all : Bool) (res : RevokeResult) (db2 : DB α),
      revoke db m pid all = .ok (res, db2) → allPlansAssigned db2) ∧
    (∀ (m d : Nat) (rec : PlanRecord α),
      get_for_member_and_date db m d = .ok rec → allPlansAssigned db) := by
  refine ⟨?_, ?_, fun _ _ _ _ => hdb⟩
  · intro today now fb req d spec adds r db2 h
    obtain ⟨-, members, -, -, hw⟩ := store_ok_inv h
    cases hpick : pickReusablePlanId req (matchingMemberPlanIds spec
        (existingRows db (members.headD ⟨0, 0⟩).household_id d
          (targetsOf req adds))) with
    | some pid =>
      obtain ⟨hplans, -, hassign, -⟩ := storeWrite_reuse hpick hw
      intro p hp
      rw [hplans] at hp
      obtain ⟨a, ha, hid⟩ := hdb p hp
      exact ⟨a, by rw [hassign]; exact List.mem_append_left _ ha, hid⟩
    | none =>
      obtain ⟨hplans, -, hassign, -⟩ := storeWrite_new hpick hw
      intro p hp
      rw [hplans] at hp
      rcases List.mem_append.mp hp with hold | hnew
      · obtain ⟨a, ha, hid⟩ := hdb p hold
        exact ⟨a, by rw [hassign]; exact List.mem_append_left _ ha, hid⟩
      · have hpeq : p = ⟨fb, (members.headD ⟨0, 0⟩).household_id, d, spec.id,
            spec.created_at, spec.breakfast, spec.lunch, spec.dinner,
            spec.reasoning, now⟩ := by simpa using hnew
        have hne : ((targetsOf req adds).enum.map fun im =>
            (⟨fb + 1 + im.1, fb, im.2⟩ : MealPlanMember)) ≠ [] := by
          intro hnil
          have h1 := List.map_eq_nil_iff.mp hnil
          have h2 : (targetsOf req adds).length = 0 := by
            rw [← List.enum_length, h1]
            rfl
          exact targetsOf_ne_nil req adds (List.length_eq_zero.mp h2)
        obtain ⟨x, hx⟩ := List.exists_mem_of_ne_nil _ hne
        obtain ⟨im, -, hxeq⟩ := List.mem_map.mp hx
        refine ⟨x, by rw [hassign]; exact List.mem_append_right _ hx, ?_⟩
        rw [← hxeq, hpeq]
  · intro m pid all res db2 h
    unfold revoke at h
    simp only [] at h
    split at h
    · exact absurd h (by simp)
    split at h
    · exact absurd h (by simp)
    split at h
    · exact absurd h (by simp)
    split at h
    · exact absurd h (by simp)
    split at h
    case isTrue hall =>
      obtain ⟨-, rfl⟩ : _ ∧ _ := by
        have h2 := Except.ok.inj h
        exact ⟨congrArg Prod.fst h2, congrArg Prod.snd h2⟩
      intro p hp
      have hp2 := List.mem_filter.mp hp
      have hpne : p.id ≠ pid := by simpa using hp2.2
      obtain ⟨a, ha, hid⟩ := hdb p hp2.1
      refine ⟨a, ?_, hid⟩
      rw [List.mem_filter]
      refine ⟨ha, ?_⟩
      simp [hid, hpne]
    case isFalse hall =>
      split at h
      case isTrue hE =>
        obtain ⟨-, rfl⟩ : _ ∧ _ := by
          have h2 := Except.ok.inj h
          exact ⟨congrArg Prod.fst h2, congrArg Prod.snd h2⟩
        intro p hp
        have hp2 := List.mem_filter.mp hp
        have hpne : p.id ≠ pid := by simpa using hp2.2
        obtain ⟨a, ha, hid⟩ := hdb p hp2.1
        refine ⟨a, ?_, hid⟩
        rw [List.mem_filter]
        refine ⟨ha, ?_⟩
        simp [hid, hpne]
      case isFalse hE =>
        obtain ⟨-, rfl⟩ : _ ∧ _ := by
          have h2 := Except.ok.inj h
          exact ⟨congrArg Prod.fst h2, congrArg Prod.snd h2⟩
        intro p hp
        by_cases hpe : p.id = pid
        · have hne : List.filter (fun a => a.meal_plan_id == pid)
              (List.filter (fun a => !(a.meal_plan_id == pid &&
                a.member_id == m)) db.assignments) ≠ [] := by
            intro hnil
            rw [← List.isEmpty_iff] at hnil
            rw [hnil] at hE
            exact absurd rfl hE
          obtain ⟨a, ha⟩ := List.exists_mem_of_ne_nil _ hne
          have h1 := List.mem_filter.mp ha
          refine ⟨a, h1.1, ?_⟩
          rw [hpe]
          simpa using h1.2
        · obtain ⟨a, ha, hid⟩ := hdb p hp
          refine ⟨a, ?_, hid⟩
          rw [List.mem_filter]
          refine ⟨ha, ?_⟩
          simp [hid, hpe]

/-- Witness for C4: in the two-member shared state the invariant holds,
and it still holds after revoking the plan for all members. -/
theorem no_orphan_plans_invariant_witness :
    allPlansAssigned (DB.mk exMembers ([] : List (MealPlan Nat)) []) :=
  (no_orphan_plans_invariant exSharedDB (by decide)).2.1 1 100 true
    ⟨100, 1, true, true⟩ (DB.mk exMembers [] []) (by rfl)

end WiseFood

namespace WiseFood

variable {α : Type}

/-! ### C1: conflicting content aborts the whole request -/

/-- C1: if any target member already has an assignment for the household
and date whose plan content differs from the incoming content, the whole
`store_for_members` call aborts with the conflict error carrying the
target date and exactly the conflicting member ids, sorted and without
duplicates; an error commits nothing in the transactional model, so every
previously stored row is unchanged. -/
theorem store_conflict_aborts [DecidableEq α] (db : DB α)
    (today now fb req d : Nat) (spec : MealPlanSpec α) (adds : List Nat)
    (members : List Member) (hh : Nat)
    (hdate : ¬ d < today)
    (hmem : getMembersInSameHousehold db (targetsOf req adds) = .ok members)
    (hhh : hh = (members.headD ⟨0, 0⟩).household_id)
    (hconf : ∃ a ∈ db.assignments, ∃ p ∈ db.plans,
      p.id = a.meal_plan_id ∧ p.household_id = hh ∧ p.applied_on = d ∧
      a.member_id ∈ targetsOf req adds ∧ matchesIncomingPlan p spec = false) :
    store_for_members db today now fb req d spec adds =
      .error (.differentPlanExists d
        (conflictingMemberIds spec (existingRows db hh d (targetsOf req adds)))) ∧
    (conflictingMemberIds spec
      (existingRows db hh d (targetsOf req adds))).Sorted (· ≤ ·) ∧
    (conflictingMemberIds spec (existingRows db hh d (targetsOf req adds))).Nodup ∧
    (∀ m, m ∈ conflictingMemberIds spec
        (existingRows db hh d (targetsOf req adds)) ↔
      ∃ a ∈ db.assignments, ∃ p ∈ db.plans,
        p.id = a.meal_plan_id ∧ p.household_id = hh ∧ p.applied_on = d ∧
        a.member_id = m ∧ m ∈ targetsOf req adds ∧
        matchesIncomingPlan p spec = false) ∧
    (ApiError.differentPlanExists d (conflictingMemberIds spec
      (existingRows db hh d (targetsOf req adds)))).kind = ErrorKind.conflict := by
  subst hhh
  have hchar : ∀ m, m ∈ conflictingMemberIds spec
      (existingRows db (members.headD ⟨0, 0⟩).household_id d (targetsOf req adds)) ↔
      ∃ a ∈ db.assignments, ∃ p ∈ db.plans,
        p.id = a.meal_plan_id ∧
        p.household_id = (members.headD ⟨0, 0⟩).household_id ∧
        p.applied_on = d ∧ a.member_id = m ∧ m ∈ targetsOf req adds ∧
        matchesIncomingPlan p spec = false := by
    intro m
    rw [mem_conflictingMemberIds]
    constructor
    · rintro ⟨r, hr, hrm, hmatch⟩
      obtain ⟨a, ha, p, hp, h1, h2, h3, h4, rfl⟩ := mem_existingRows.mp hr
      exact ⟨a, ha, p, hp, h1, h2, h3, hrm, hrm ▸ h4, hmatch⟩
    · rintro ⟨a, ha, p, hp, h1, h2, h3, h4, h5, hmatch⟩
      exact ⟨(m, p), mem_existingRows.mpr ⟨a, ha, p, hp, h1, h2, h3,
        h4 ▸ h5, by rw [h4]⟩, rfl, hmatch⟩
  have hne : conflictingMemberIds spec
      (existingRows db (members.headD ⟨0, 0⟩).household_id d
        (targetsOf req adds)) ≠ [] := by
    obtain ⟨a, ha, p, hp, h1, h2, h3, h4, hmatch⟩ := hconf
    intro hnil
    have : a.member_id ∈ conflictingMemberIds spec
        (existingRows db (members.headD ⟨0, 0⟩).household_id d
          (targetsOf req adds)) :=
      (hchar a.member_id).mpr ⟨a, ha, p, hp, h1, h2, h3, rfl, h4, hmatch⟩
    rw [hnil] at this
    exact absurd this (List.not_mem_nil _)
  refine ⟨?_, sortedDedup_sorted _, sortedDedup_nodup _, hchar, rfl⟩
  unfold store_for_members
  rw [if_neg hdate]
  simp only []
  rw [hmem]
  dsimp only
  rw [if_pos hne]

/-- Witness for C1: member 1 already has `exPlanA` (content `exSpecA`) on
date 5; storing `exSpecB` for members 1 and 2 on date 5 aborts with the
conflict error naming member 1. -/
theorem store_conflict_aborts_witness :
    store_for_members exSharedDB 5 7 200 1 5 exSpecB [2] =
      .error (.differentPlanExists 5
        (conflictingMemberIds exSpecB (existingRows exSharedDB 10 5
          (targetsOf 1 [2])))) ∧
    (conflictingMemberIds exSpecB
      (existingRows exSharedDB 10 5 (targetsOf 1 [2]))).Sorted (· ≤ ·) ∧
    (conflictingMemberIds exSpecB
      (existingRows exSharedDB 10 5 (targetsOf 1 [2]))).Nodup ∧
    (∀ m, m ∈ conflictingMemberIds exSpecB
        (existingRows exSharedDB 10 5 (targetsOf 1 [2])) ↔
      ∃ a ∈ exSharedDB.assignments, ∃ p ∈ exSharedDB.plans,
        p.id = a.meal_plan_id ∧ p.household_id = 10 ∧ p.applied_on = 5 ∧
        a.member_id = m ∧ m ∈ targetsOf 1 [2] ∧
        matchesIncomingPlan p exSpecB = false) ∧
    (ApiError.differentPlanExists 5 (conflictingMemberIds exSpecB
      (existingRows exSharedDB 10 5 (targetsOf 1 [2])))).kind =
        ErrorKind.conflict :=
  store_conflict_aborts exSharedDB 5 7 200 1 5 exSpecB [2]
    [⟨1, 10⟩, ⟨2, 10⟩] 10 (by decide) (by rfl) (by rfl) (by decide)

end WiseFood

namespace WiseFood

variable {α : Type}

/-! ### C6: member resolution failures -/

/-- Unresolved ids make `_get_members_in_same_household` fail with the
not-found error naming exactly the missing ids, sorted and deduplicated. -/
theorem getMembers_missing (db : DB α) (ids : List Nat)
    (hnd : (db.members.map Member.id).Nodup)
    (hmiss : ∃ i ∈ ids, ∀ mm ∈ db.members, mm.id ≠ i) :
    ∃ missing, getMembersInSameHousehold db ids =
        .error (.membersNotFound missing) ∧
      missing.Sorted (· ≤ ·) ∧ missing.Nodup ∧
      (∀ x, x ∈ missing ↔ x ∈ ids ∧ ∀ mm ∈ db.members, mm.id ≠ x) := by
  obtain ⟨i, hi, hnomem⟩ := hmiss
  have hnd2 : ((db.members.filter fun m => ids.contains m.id).map
      Member.id).Nodup :=
    hnd.sublist ((List.filter_sublist _).map _)
  have hsubset : ((db.members.filter fun m => ids.contains m.id).map
      Member.id) ⊆ ids.dedup.erase i := by
    intro x hx
    obtain ⟨m, hm, rfl⟩ := List.mem_map.mp hx
    have hm2 := List.mem_filter.mp hm
    have hmid : m.id ∈ ids := by simpa [List.contains] using hm2.2
    have hne : m.id ≠ i := hnomem m hm2.1
    exact ((List.nodup_dedup ids).mem_erase_iff).mpr
      ⟨hne, List.mem_dedup.mpr hmid⟩
  have hlen : (db.members.filter fun m => ids.contains m.id).length ≠
      ids.dedup.length := by
    have h1 : ((db.members.filter fun m => ids.contains m.id).map
        Member.id).length ≤ (ids.dedup.erase i).length :=
      (hnd2.subperm hsubset).length_le
    rw [List.length_map] at h1
    have h2 : (ids.dedup.erase i).length = ids.dedup.length - 1 :=
      List.length_erase_of_mem (List.mem_dedup.mpr hi)
    have h3 : 0 < ids.dedup.length :=
      List.length_pos_of_mem (List.mem_dedup.mpr hi)
    omega
  refine ⟨sortedDedup (ids.filter fun x =>
      !((db.members.filter fun m => ids.contains m.id).any fun m => m.id == x)),
    ?_, sortedDedup_sorted _, sortedDedup_nodup _, ?_⟩
  · unfold getMembersInSameHousehold
    simp only []
    rw [if_pos hlen]
  · intro x
    rw [mem_sortedDedup, List.mem_filter]
    constructor
    · rintro ⟨hx, hany⟩
      refine ⟨hx, ?_⟩
      intro mm hmm hmid
      have hmem : mm ∈ db.members.filter fun m => ids.contains m.id := by
        rw [List.mem_filter]
        exact ⟨hmm, by simpa [List.contains] using hmid ▸ hx⟩
      have : ((db.members.filter fun m => ids.contains m.id).any
          fun m => m.id == x) = true :=
        List.any_eq_true.mpr ⟨mm, hmem, by simpa using hmid⟩
      rw [this] at hany
      exact absurd hany (by simp)
    · rintro ⟨hx, hnone⟩
      refine ⟨hx, ?_⟩
      have : ((db.members.filter fun m => ids.contains m.id).any
          fun m => m.id == x) = false := by
        rw [List.any_eq_false]
        intro m hm
        have hm2 := List.mem_filter.mp hm
        simpa using hnone m hm2.1
      rw [this]
      rfl

/-- When all ids resolve but two targeted members live in different
households, `_get_members_in_same_household` fails with the conflict
error. -/
theorem getMembers_household_conflict (db : DB α) (ids : List Nat)
    (hnd : (db.members.map Member.id).Nodup)
    (hall : ∀ i ∈ ids, ∃ mm ∈ db.members, mm.id = i)
    (hdiff : ∃ m1 ∈ db.members, ∃ m2 ∈ db.members,
      m1.id ∈ ids ∧ m2.id ∈ ids ∧ m1.household_id ≠ m2.household_id) :
    getMembersInSameHousehold db ids = .error .membersNotSameHousehold := by
  have hnd2 : ((db.members.filter fun m => ids.contains m.id).map
      Member.id).Nodup :=
    hnd.sublist ((List.filter_sublist _).map _)
  have hsub1 : ((db.members.filter fun m => ids.contains m.id).map
      Member.id) ⊆ ids.dedup := by
    intro x hx
    obtain ⟨m, hm, rfl⟩ := List.mem_map.mp hx
    have hm2 := List.mem_filter.mp hm
    exact List.mem_dedup.mpr (by simpa [List.contains] using hm2.2)
  have hsub2 : ids.dedup ⊆ ((db.members.filter fun m =>
      ids.contains m.id).map Member.id) := by
    intro x hx
    obtain ⟨mm, hmm, rfl⟩ := hall x (List.mem_dedup.mp hx)
    refine List.mem_map.mpr ⟨mm, ?_, rfl⟩
    rw [List.mem_filter]
    exact ⟨hmm, by simpa [List.contains] using List.mem_dedup.mp hx⟩
  have hlen : (db.members.filter fun m => ids.contains m.id).length =
      ids.dedup.length := by
    have hperm := (hnd2.subperm hsub1).antisymm
      ((List.nodup_dedup ids).subperm hsub2)
    have := hperm.length_eq
    rw [List.length_map] at this
    exact this
  have hhh : ((db.members.filter fun m => ids.contains m.id).map
      Member.household_id).dedup.length ≠ 1 := by
    obtain ⟨m1, hm1, m2, hm2, hid1, hid2, hne⟩ := hdiff
    have hmem1 : m1 ∈ db.members.filter fun m => ids.contains m.id := by
      rw [List.mem_filter]
      exact ⟨hm1, by simpa [List.contains] using hid1⟩
    have hmem2 : m2 ∈ db.members.filter fun m => ids.contains m.id := by
      rw [List.mem_filter]
      exact ⟨hm2, by simpa [List.contains] using hid2⟩
    have hd1 : m1.household_id ∈ ((db.members.filter fun m =>
        ids.contains m.id).map Member.household_id).dedup :=
      List.mem_dedup.mpr (List.mem_map.mpr ⟨m1, hmem1, rfl⟩)
    have hd2 : m2.household_id ∈ ((db.members.filter fun m =>
        ids.contains m.id).map Member.household_id).dedup :=
      List.mem_dedup.mpr (List.mem_map.mpr ⟨m2, hmem2, rfl⟩)
    intro hone
    obtain ⟨x, hx⟩ := List.length_eq_one.mp hone
    rw [hx] at hd1 hd2
    have e1 : m1.household_id = x := by simpa using hd1
    have e2 : m2.household_id = x := by simpa using hd2
    exact hne (e1.trans e2.symm)
  unfold getMembersInSameHousehold
  simp only []
  rw [if_neg (fun hne => hne hlen), if_pos hhh]

/-- C6: `store_for_members` fails with the not-found error naming exactly
the sorted missing target ids when any target id does not resolve, and
with the conflict error when all ids resolve but the targeted members do
not share one household; an error commits nothing in the transactional
model. -/
theorem store_member_resolution_errors [DecidableEq α] (db : DB α)
    (today now fb req d : Nat) (spec : MealPlanSpec α) (adds : List Nat)
    (hdate : ¬ d < today) (hnd : (db.members.map Member.id).Nodup) :
    ((∃ i ∈ targetsOf req adds, ∀ mm ∈ db.members, mm.id ≠ i) →
      ∃ missing, store_for_members db today now fb req d spec adds =
          .error (.membersNotFound missing) ∧
        missing.Sorted (· ≤ ·) ∧ missing.Nodup ∧
        (∀ x, x ∈ missing ↔ x ∈ targetsOf req adds ∧
          ∀ mm ∈ db.members, mm.id ≠ x) ∧
        (ApiError.membersNotFound missing).kind = ErrorKind.notFound) ∧
    ((∀ i ∈ targetsOf req adds, ∃ mm ∈ db.members, mm.id = i) →
      (∃ m1 ∈ db.members, ∃ m2 ∈ db.members,
        m1.id ∈ targetsOf req adds ∧ m2.id ∈ targetsOf req adds ∧
        m1.household_id ≠ m2.household_id) →
      store_for_members db today now fb req d spec adds =
        .error .membersNotSameHousehold ∧
      ApiError.membersNotSameHousehold.kind = ErrorKind.conflict) := by
  constructor
  · intro hmiss
    obtain ⟨missing, hg, hs, hn, hc⟩ :=
      getMembers_missing db (targetsOf req adds) hnd hmiss
    refine ⟨missing, ?_, hs, hn, hc, rfl⟩
    unfold store_for_members
    rw [if_neg hdate]
    simp only []
    rw [hg]
  · intro hall hdiff
    have hg := getMembers_household_conflict db (targetsOf req adds)
      hnd hall hdiff
    refine ⟨?_, rfl⟩
    unfold store_for_members
    rw [if_neg hdate]
    simp only []
    rw [hg]

/-- Witness for C6: storing for members 9 and 8 (which do not exist) fails
naming both, sorted. -/
theorem store_member_resolution_errors_witness :
    ∃ missing, store_for_members exEmptyDB 5 7 200 1 5 exSpecA [9, 8] =
        .error (.membersNotFound missing) ∧
      missing.Sorted (· ≤ ·) ∧ missing.Nodup ∧
      (∀ x, x ∈ missing ↔ x ∈ targetsOf 1 [9, 8] ∧
        ∀ mm ∈ exEmptyDB.members, mm.id ≠ x) ∧
      (ApiError.membersNotFound missing).kind = ErrorKind.notFound :=
  (store_member_resolution_errors exEmptyDB 5 7 200 1 5 exSpecA [9, 8]
    (by decide) (by decide)).1 (by decide)

end WiseFood

namespace WiseFood

variable {α : Type}

/-! ### The reusable-plan choice: from the dict fold to first-match form -/

theorem planIdsOf_nil (m : Nat) : planIdsOf m [] = [] := rfl

theorem planIdsOf_addMatch_self (acc : List (Nat × List Nat)) (m pid : Nat) :
    planIdsOf m (addMatch acc m pid) = planIdsOf m acc ++ [pid] := by
  induction acc with
  | nil => simp [addMatch, planIdsOf]
  | cons kv rest ih =>
    obtain ⟨k, v⟩ := kv
    by_cases hk : k = m
    · subst hk
      simp [addMatch, planIdsOf]
    · rw [show addMatch ((k, v) :: rest) m pid =
          (k, v) :: addMatch rest m pid by simp [addMatch, hk]]
      unfold planIdsOf
      rw [List.find?_cons_of_neg _ (by simpa using hk),
        List.find?_cons_of_neg _ (by simpa using hk)]
      exact ih

theorem planIdsOf_addMatch_ne (acc : List (Nat × List Nat)) (m m2 pid : Nat)
    (hne : m2 ≠ m) :
    planIdsOf m (addMatch acc m2 pid) = planIdsOf m acc := by
  induction acc with
  | nil => simp [addMatch, planIdsOf, List.find?_cons_of_neg, hne]
  | cons kv rest ih =>
    obtain ⟨k, v⟩ := kv
    by_cases hk : k = m2
    · subst hk
      rw [show addMatch ((k, v) :: rest) k pid =
          (k, v ++ [pid]) :: rest by simp [addMatch]]
      unfold planIdsOf
      rw [List.find?_cons_of_neg _ (by simpa using hne),
        List.find?_cons_of_neg _ (by simpa using hne)]
    · rw [show addMatch ((k, v) :: rest) m2 pid =
          (k, v) :: addMatch rest m2 pid by simp [addMatch, hk]]
      by_cases hkm : k = m
      · subst hkm
        unfold planIdsOf
        rw [List.find?_cons_of_pos _ (by simp),
          List.find?_cons_of_pos _ (by simp)]
      · unfold planIdsOf
        rw [List.find?_cons_of_neg _ (by simpa using hkm),
          List.find?_cons_of_neg _ (by simpa using hkm)]
        exact ih

theorem planIdsOf_foldl (l : List (Nat × MealPlan α))
    (acc : List (Nat × List Nat)) (m : Nat) :
    planIdsOf m (l.foldl (fun acc r => addMatch acc r.1 r.2.id) acc) =
      planIdsOf m acc ++ (l.filter fun r => r.1 == m).map fun r => r.2.id := by
  induction l generalizing acc with
  | nil => simp
  | cons r rs ih =>
    rw [List.foldl_cons, ih]
    by_cases hr : r.1 = m
    · rw [List.filter_cons_of_pos (by simpa using hr), List.map_cons]
      rw [show addMatch acc r.1 r.2.id = addMatch acc m r.2.id by rw [hr]]
      rw [planIdsOf_addMatch_self, List.append_assoc]
      rfl
    · rw [List.filter_cons_of_neg (by simpa using hr)]
      rw [planIdsOf_addMatch_ne acc m r.1 r.2.id hr]

/-- The plan ids the dict records for one member are exactly the plan ids
of that member's matching rows, in row order. -/
theorem planIdsOf_matchingDict [DecidableEq α] (spec : MealPlanSpec α)
    (rows : List (Nat × MealPlan α)) (m : Nat) :
    planIdsOf m (matchingMemberPlanIds spec rows) =
      ((rows.filter fun r => matchesIncomingPlan r.2 spec).filter
        fun r => r.1 == m).map fun r => r.2.id := by
  unfold matchingMemberPlanIds
  rw [planIdsOf_foldl, planIdsOf_nil, List.nil_append]

theorem head?_append_left {v : List Nat} (x : Nat) (hv : v ≠ []) :
    (v ++ [x]).head? = v.head? := by
  cases v with
  | nil => exact absurd rfl hv
  | cons a t => rfl

theorem foldl_addMatch_head (l : List (Nat × MealPlan α)) :
    ∀ (k : Nat) (v : List Nat) (rest : List (Nat × List Nat)), v ≠ [] →
    ∃ v2 rest2,
      (l.foldl (fun acc r => addMatch acc r.1 r.2.id) ((k, v) :: rest)) =
        (k, v2) :: rest2 ∧ v2.head? = v.head? ∧ v2 ≠ [] := by
  induction l with
  | nil =>
    intro k v rest hv
    exact ⟨v, rest, rfl, rfl, hv⟩
  | cons r rs ih =>
    intro k v rest hv
    rw [List.foldl_cons]
    by_cases hk : k = r.1
    · rw [show addMatch ((k, v) :: rest) r.1 r.2.id =
          (k, v ++ [r.2.id]) :: rest by simp [addMatch, hk]]
      obtain ⟨v2, rest2, heq, hh, hne⟩ := ih k (v ++ [r.2.id]) rest (by simp)
      exact ⟨v2, rest2, heq, by rw [hh, head?_append_left _ hv], hne⟩
    · rw [show addMatch ((k, v) :: rest) r.1 r.2.id =
          (k, v) :: addMatch rest r.1 r.2.id by simp [addMatch, hk]]
      exact ih k v (addMatch rest r.1 r.2.id) hv

/-- The first plan id any dict entry holds is the plan id of the first
matching row. -/
theorem firstPlanId_matchingDict [DecidableEq α] (spec : MealPlanSpec α)
    (rows : List (Nat × MealPlan α)) :
    ((matchingMemberPlanIds spec rows).findSome? fun kv => kv.2.head?) =
      ((rows.filter fun r => matchesIncomingPlan r.2 spec).map
        fun r => r.2.id).head? := by
  unfold matchingMemberPlanIds
  cases hm : rows.filter fun r => matchesIncomingPlan r.2 spec with
  | nil => simp
  | cons r rs =>
    obtain ⟨v2, rest2, heq, hh, hne⟩ :=
      foldl_addMatch_head rs r.1 [r.2.id] [] (by simp)
    rw [List.foldl_cons,
      show addMatch [] r.1 r.2.id = [(r.1, [r.2.id])] from rfl, heq]
    cases v2 with
    | nil => exact absurd rfl hne
    | cons x xs =>
      have hx : x = r.2.id := by simpa using hh
      rw [List.map_cons, List.head?_cons]
      simp [List.findSome?, hx]

/-- `_pick_reusable_plan_id` in first-match form: the plan id of the first
(ordered) matching row of the requesting member if it has one, else the
plan id of the first matching row of any target member, else none.  This
is the spec's description of step 4 of the algorithm, proved equal to the
dict-based implementation. -/
theorem pickReusablePlanId_spec [DecidableEq α] (req : Nat)
    (spec : MealPlanSpec α) (rows : List (Nat × MealPlan α)) :
    pickReusablePlanId req (matchingMemberPlanIds spec rows) =
      match (((rows.filter fun r => matchesIncomingPlan r.2 spec).filter
          fun r => r.1 == req).map fun r => r.2.id).head? with
      | some pid => some pid
      | none => ((rows.filter fun r => matchesIncomingPlan r.2 spec).map
          fun r => r.2.id).head? := by
  unfold pickReusablePlanId
  rw [planIdsOf_matchingDict]
  cases h : ((rows.filter fun r => matchesIncomingPlan r.2 spec).filter
      fun r => r.1 == req).map fun r => r.2.id with
  | nil =>
    rw [firstPlanId_matchingDict]
    rfl
  | cons p t => rfl

end WiseFood

namespace WiseFood

variable {α : Type}

/-! ### C5: which plan id a successful store uses -/

theorem toDict_id (p : MealPlan α) (assignments : List MealPlanMember)
    (c : Option Nat) : (p.toDict assignments c).id = p.id := rfl

/-- C5: on a conflict-free `store_for_members`, the plan id of the result
(the single plan all assignments point at) is the first content-matching
candidate row of the requesting member — candidates ordered by creation
time descending then id descending inside `existingRows` — else the first
content-matching row of any target member, else the freshly created plan,
whose row carries the incoming content and the resolved household. -/
theorem store_plan_choice [DecidableEq α] (db : DB α)
    (today now fb req d : Nat) (spec : MealPlanSpec α) (adds : List Nat)
    (r : PlanRecord α) (db2 : DB α) (members : List Member) (hh : Nat)
    (rows : List (Nat × MealPlan α))
    (h : store_for_members db today now fb req d spec adds = .ok (r, db2))
    (hmem : getMembersInSameHousehold db (targetsOf req adds) = .ok members)
    (hhh : hh = (members.headD ⟨0, 0⟩).household_id)
    (hrows : rows = existingRows db hh d (targetsOf req adds)) :
    (∀ rr0, ((rows.filter fun rr => matchesIncomingPlan rr.2 spec).filter
        fun rr => rr.1 == req).head? = some rr0 → r.id = rr0.2.id) ∧
    (((rows.filter fun rr => matchesIncomingPlan rr.2 spec).filter
        fun rr => rr.1 == req) = [] →
      ∀ rr0, (rows.filter fun rr => matchesIncomingPlan rr.2 spec).head? =
        some rr0 → r.id = rr0.2.id) ∧
    ((rows.filter fun rr => matchesIncomingPlan rr.2 spec) = [] →
      r.id = fb ∧
      db2.plans = db.plans ++ [⟨fb, hh, d, spec.id, spec.created_at,
        spec.breakfast, spec.lunch, spec.dinner, spec.reasoning, now⟩]) := by
  subst hhh
  obtain ⟨-, members2, hm2, -, hw⟩ := store_ok_inv h
  have hm3 : members2 = members := Except.ok.inj (hm2.symm.trans hmem)
  rw [hm3] at hw
  subst hrows
  refine ⟨?_, ?_, ?_⟩
  · intro rr0 hrr0
    have hpick : pickReusablePlanId req (matchingMemberPlanIds spec
        (existingRows db (members.headD ⟨0, 0⟩).household_id d
          (targetsOf req adds))) = some rr0.2.id := by
      rw [pickReusablePlanId_spec, List.head?_map, hrr0]
      rfl
    obtain ⟨-, -, -, stored, -, hsid, hrEq⟩ := storeWrite_reuse hpick hw
    rw [hrEq, toDict_id, hsid]
  · intro hreqnil rr0 hrr0
    have hpick : pickReusablePlanId req (matchingMemberPlanIds spec
        (existingRows db (members.headD ⟨0, 0⟩).household_id d
          (targetsOf req adds))) = some rr0.2.id := by
      rw [pickReusablePlanId_spec, hreqnil]
      simp only [List.map_nil, List.head?_nil]
      rw [List.head?_map, hrr0]
      rfl
    obtain ⟨-, -, -, stored, -, hsid, hrEq⟩ := storeWrite_reuse hpick hw
    rw [hrEq, toDict_id, hsid]
  · intro hmnil
    have hpick : pickReusablePlanId req (matchingMemberPlanIds spec
        (existingRows db (members.headD ⟨0, 0⟩).household_id d
          (targetsOf req adds))) = none := by
      rw [pickReusablePlanId_spec, hmnil]
      rfl
    obtain ⟨hplans, -, -, stored, hfind, hsid, hrEq⟩ := storeWrite_new hpick hw
    exact ⟨by rw [hrEq, toDict_id, hsid], hplans⟩

/-- Witness for C5: re-storing `exSpecA` for members 1 and 2 when both are
already assigned to plan 100 with the same content answers plan 100, the
first matching row of the requesting member. -/
theorem store_plan_choice_witness :
    (∀ rr0, (((existingRows exSharedDB 10 5 (targetsOf 1 [2])).filter
        fun rr => matchesIncomingPlan rr.2 exSpecA).filter
        fun rr => rr.1 == 1).head? = some rr0 →
      (PlanRecord.mk 100 10 5 none none 1 2 3 none 0 [1, 2] [2]).id =
        rr0.2.id) ∧
    ((((existingRows exSharedDB 10 5 (targetsOf 1 [2])).filter
        fun rr => matchesIncomingPlan rr.2 exSpecA).filter
        fun rr => rr.1 == 1) = [] →
      ∀ rr0, ((existingRows exSharedDB 10 5 (targetsOf 1 [2])).filter
        fun rr => matchesIncomingPlan rr.2 exSpecA).head? = some rr0 →
      (PlanRecord.mk 100 10 5 none none 1 2 3 none 0 [1, 2] [2]).id =
        rr0.2.id) ∧
    (((existingRows exSharedDB 10 5 (targetsOf 1 [2])).filter
        fun rr => matchesIncomingPlan rr.2 exSpecA) = [] →
      (PlanRecord.mk 100 10 5 none none 1 2 3 none 0 [1, 2] [2]).id = 200 ∧
      (DB.mk exMembers [exPlanA]
        [⟨50, 100, 1⟩, ⟨51, 100, 2⟩]).plans = exSharedDB.plans ++
        [⟨200, 10, 5, none, none, 1, 2, 3, none, 7⟩]) :=
  store_plan_choice exSharedDB 5 7 200 1 5 exSpecA [2]
    (PlanRecord.mk 100 10 5 none none 1 2 3 none 0 [1, 2] [2])
    (DB.mk exMembers [exPlanA] [⟨50, 100, 1⟩, ⟨51, 100, 2⟩])
    [⟨1, 10⟩, ⟨2, 10⟩] 10 (existingRows exSharedDB 10 5 (targetsOf 1 [2]))
    (by rfl) (by rfl) (by rfl) (by rfl)

end WiseFood

namespace WiseFood

variable {α : Type}

/-! ### C10: historical duplicate plans are never merged -/

theorem toDict_applies (p : MealPlan α) (assignments : List MealPlanMember)
    (c : Option Nat) :
    (p.toDict assignments c).applies_to_member_ids =
      List.insertionSort (· ≤ ·) (assignments.map MealPlanMember.member_id) :=
  rfl

/-- Members that already hold some candidate-row assignment are excluded
from the linking step. -/
theorem not_mem_membersWithoutAssignments {targets : List Nat}
    {rows : List (Nat × MealPlan α)} {m : Nat}
    (hmrow : ∃ rr ∈ rows, rr.1 = m) :
    m ∉ membersWithoutAssignments targets rows := by
  intro hmem
  unfold membersWithoutAssignments at hmem
  rw [mem_sortedDedup, List.mem_filter] at hmem
  obtain ⟨rr, hrr, hrrm⟩ := hmrow
  have : (rows.any fun r => r.1 == m) = true :=
    List.any_eq_true.mpr ⟨rr, hrr, by simpa using hrrm⟩
  rw [this] at hmem
  exact absurd hmem.2 (by simp)

/-- C10 (implicit behavior): when a successful `store_for_members` reuses
an existing matching plan, a target member who already holds a candidate
assignment — but not one to the chosen plan — receives no new assignment,
keeps every assignment it had, does not appear in the returned
`applies_to_member_ids`, and no plan row is created or removed: duplicate
content-matching plans are left separate, never merged. -/
theorem store_no_merge_of_duplicates [DecidableEq α] (db : DB α)
    (today now fb req d : Nat) (spec : MealPlanSpec α) (adds : List Nat)
    (r : PlanRecord α) (db2 : DB α) (members : List Member) (hh : Nat)
    (rows : List (Nat × MealPlan α)) (m : Nat)
    (h : store_for_members db today now fb req d spec adds = .ok (r, db2))
    (hmem : getMembersInSameHousehold db (targetsOf req adds) = .ok members)
    (hhh : hh = (members.headD ⟨0, 0⟩).household_id)
    (hrows : rows = existingRows db hh d (targetsOf req adds))
    (hmatch : ∃ rr ∈ rows, matchesIncomingPlan rr.2 spec = true)
    (hmrow : ∃ rr ∈ rows, rr.1 = m)
    (hnotchosen : ∀ a ∈ db.assignments, a.meal_plan_id = r.id →
      a.member_id ≠ m) :
    (∀ a ∈ db2.assignments, a.meal_plan_id = r.id → a.member_id ≠ m) ∧
    m ∉ r.applies_to_member_ids ∧
    (∀ a ∈ db.assignments, a.member_id = m → a ∈ db2.assignments) ∧
    db2.plans = db.plans := by
  subst hhh
  obtain ⟨-, members2, hm2, -, hw⟩ := store_ok_inv h
  have hm3 : members2 = members := Except.ok.inj (hm2.symm.trans hmem)
  rw [hm3] at hw
  subst hrows
  obtain ⟨pid, hpick⟩ : ∃ pid, pickReusablePlanId req
      (matchingMemberPlanIds spec (existingRows db
        (members.headD ⟨0, 0⟩).household_id d (targetsOf req adds))) =
      some pid := by
    rw [pickReusablePlanId_spec]
    cases h1 : ((((existingRows db (members.headD ⟨0, 0⟩).household_id d
        (targetsOf req adds)).filter fun r => matchesIncomingPlan r.2 spec).filter
        fun r => r.1 == req).map fun r => r.2.id).head? with
    | some p => exact ⟨p, rfl⟩
    | none =>
      cases h2 : (((existingRows db (members.headD ⟨0, 0⟩).household_id d
          (targetsOf req adds)).filter fun r =>
          matchesIncomingPlan r.2 spec).map fun r => r.2.id).head? with
      | some p => exact ⟨p, rfl⟩
      | none =>
        obtain ⟨rr, hrr, hmt⟩ := hmatch
        rw [List.head?_eq_none_iff, List.map_eq_nil_iff] at h2
        have : rr ∈ (existingRows db (members.headD ⟨0, 0⟩).household_id d
            (targetsOf req adds)).filter fun r =>
            matchesIncomingPlan r.2 spec :=
          List.mem_filter.mpr ⟨hrr, hmt⟩
        rw [h2] at this
        exact absurd this (List.not_mem_nil _)
  obtain ⟨hplans, -, hassign, stored, -, hsid, hrEq⟩ := storeWrite_reuse hpick hw
  have hrid : r.id = pid := by rw [hrEq, toDict_id, hsid]
  have hnew : ∀ a ∈ db2.assignments, a.meal_plan_id = r.id →
      a.member_id ≠ m := by
    intro a ha hmeal
    rw [hassign] at ha
    rcases List.mem_append.mp ha with hold | hnewm
    · exact hnotchosen a hold hmeal
    · obtain ⟨im, him, rfl⟩ := List.mem_map.mp hnewm
      intro hcontra
      have him2 : im.2 ∈ membersWithoutAssignments (targetsOf req adds)
          (existingRows db (members.headD ⟨0, 0⟩).household_id d
            (targetsOf req adds)) := by
        have : im.2 ∈ (membersWithoutAssignments (targetsOf req adds)
            (existingRows db (members.headD ⟨0, 0⟩).household_id d
              (targetsOf req adds))).enum.map Prod.snd :=
          List.mem_map.mpr ⟨im, him, rfl⟩
        rwa [List.enum_map_snd] at this
      rw [show (⟨fb + im.1, pid, im.2⟩ : MealPlanMember).member_id = im.2
          from rfl] at hcontra
      rw [hcontra] at him2
      exact not_mem_membersWithoutAssignments hmrow him2
  refine ⟨hnew, ?_, ?_, hplans⟩
  · intro hmr
    rw [hrEq, toDict_applies, List.mem_insertionSort] at hmr
    obtain ⟨a, ha, haid⟩ := List.mem_map.mp hmr
    have ha2 := List.mem_filter.mp ha
    have hmeal : a.meal_plan_id = pid := by simpa using ha2.2
    exact hnew a ha2.1 (hrid ▸ hmeal) haid
  · intro a ha hm
    rw [hassign]
    exact List.mem_append_left _ ha

/-- A household with duplicate content-identical plans: plan 100 (older)
is assigned to member 2, plan 101 (newer) to member 1. -/
def exDupPlan1 : MealPlan Nat := ⟨101, 10, 5, none, none, 1, 2, 3, none, 1⟩

/-- State with the historical duplicates. -/
def exDupDB : DB Nat :=
  ⟨[⟨1, 10⟩, ⟨2, 10⟩], [exPlanA, exDupPlan1], [⟨50, 100, 2⟩, ⟨51, 101, 1⟩]⟩

/-- Witness for C10: re-storing the shared content for members 1 and 2
reuses member 1's plan 101; member 2 keeps its assignment to plan 100,
gains none to 101, and is absent from the result's member list; both plan
rows survive. -/
theorem store_no_merge_of_duplicates_witness :
    (∀ a ∈ (DB.mk [⟨1, 10⟩, ⟨2, 10⟩] [exPlanA, exDupPlan1]
        [⟨50, 100, 2⟩, ⟨51, 101, 1⟩] : DB Nat).assignments,
      a.meal_plan_id = (PlanRecord.mk 101 10 5 none none 1 2 3 none 1
        [1] []).id → a.member_id ≠ 2) ∧
    2 ∉ (PlanRecord.mk 101 10 5 none none 1 2 3 none 1
      [1] []).applies_to_member_ids ∧
    (∀ a ∈ exDupDB.assignments, a.member_id = 2 →
      a ∈ (DB.mk [⟨1, 10⟩, ⟨2, 10⟩] [exPlanA, exDupPlan1]
        [⟨50, 100, 2⟩, ⟨51, 101, 1⟩] : DB Nat).assignments) ∧
    (DB.mk [⟨1, 10⟩, ⟨2, 10⟩] [exPlanA, exDupPlan1]
      [⟨50, 100, 2⟩, ⟨51, 101, 1⟩] : DB Nat).plans = exDupDB.plans :=
  store_no_merge_of_duplicates exDupDB 5 7 200 1 5 exSpecA [2]
    (PlanRecord.mk 101 10 5 none none 1 2 3 none 1 [1] [])
    (DB.mk [⟨1, 10⟩, ⟨2, 10⟩] [exPlanA, exDupPlan1]
      [⟨50, 100, 2⟩, ⟨51, 101, 1⟩])
    [⟨1, 10⟩, ⟨2, 10⟩] 10 (existingRows exDupDB 10 5 (targetsOf 1 [2])) 2
    (by rfl) (by rfl) (by rfl) (by rfl) (by decide) (by decide) (by decide)

end WiseFood

namespace WiseFood

variable {α : Type}

/-! ### C9: get returns the most recently created matching plan -/

theorem toDict_other (p : MealPlan α) (assignments : List MealPlanMember)
    (c : Nat) :
    (p.toDict assignments (some c)).other_member_ids =
      (p.toDict assignments (some c)).applies_to_member_ids.filter
        (fun mid => mid != c) :=
  rfl

/-- C9: a successful `get_for_member_and_date` returns a plan of the
requested date that carries an assignment for the member and whose
creation time is maximal among all such plans, rendered with the full
sorted assigned-member-id list and, relative to the member, the other
member ids; when no plan of the date is assigned to the member the call
fails with the not-found error. -/
theorem get_most_recent (db : DB α) (member_id target_date : Nat) :
    (∀ rec, get_for_member_and_date db member_id target_date = .ok rec →
      ∃ p ∈ db.plans, p.applied_on = target_date ∧
        (∃ a ∈ db.assignments, a.meal_plan_id = p.id ∧
          a.member_id = member_id) ∧
        (∀ q ∈ db.plans, q.applied_on = target_date →
          (∃ a ∈ db.assignments, a.meal_plan_id = q.id ∧
            a.member_id = member_id) →
          q.created_at ≤ p.created_at) ∧
        rec = p.toDict (planAssignments db p.id) (some member_id) ∧
        rec.applies_to_member_ids.Sorted (· ≤ ·) ∧
        (∀ x, x ∈ rec.applies_to_member_ids ↔
          ∃ a ∈ db.assignments, a.meal_plan_id = p.id ∧ a.member_id = x) ∧
        rec.other_member_ids =
          rec.applies_to_member_ids.filter (fun mid => mid != member_id)) ∧
    ((∀ p ∈ db.plans, p.applied_on = target_date →
        ∀ a ∈ db.assignments, a.meal_plan_id = p.id →
          a.member_id ≠ member_id) →
      get_for_member_and_date db member_id target_date =
        .error (.noMealPlanForDate member_id target_date)) := by
  constructor
  · intro rec hrec
    unfold get_for_member_and_date at hrec
    simp only [] at hrec
    split at hrec
    · exact absurd hrec (by simp)
    rename_i plan hhead
    have hrec2 : rec = plan.toDict (planAssignments db plan.id)
        (some member_id) := (Except.ok.inj hrec).symm
    obtain ⟨t, hl⟩ : ∃ t, List.insertionSort createdRel
        (db.plans.filter fun p => decide (p.applied_on = target_date) &&
          (db.assignments.any fun a =>
            a.meal_plan_id == p.id && a.member_id == member_id)) =
        plan :: t := by
      cases hl : List.insertionSort createdRel
          (db.plans.filter fun p => decide (p.applied_on = target_date) &&
            (db.assignments.any fun a =>
              a.meal_plan_id == p.id && a.member_id == member_id)) with
      | nil =>
        rw [hl] at hhead
        exact absurd hhead (by simp)
      | cons a t =>
        rw [hl] at hhead
        have ha : a = plan := by simpa using hhead
        exact ⟨t, by rw [ha]⟩
    have hmem : plan ∈ db.plans.filter fun p =>
        decide (p.applied_on = target_date) &&
        (db.assignments.any fun a =>
          a.meal_plan_id == p.id && a.member_id == member_id) := by
      rw [← List.mem_insertionSort (r := createdRel), hl]
      exact List.mem_cons_self _ _
    have hmem2 := List.mem_filter.mp hmem
    have hcond := hmem2.2
    simp only [Bool.and_eq_true, decide_eq_true_eq, List.any_eq_true,
      beq_iff_eq] at hcond
    refine ⟨plan, hmem2.1, hcond.1, ?_, ?_, hrec2, ?_, ?_, ?_⟩
    · obtain ⟨a, ha, h1, h2⟩ := hcond.2
      exact ⟨a, ha, h1, h2⟩
    · intro q hq hqd hqass
      have hqmem : q ∈ List.insertionSort createdRel
          (db.plans.filter fun p => decide (p.applied_on = target_date) &&
            (db.assignments.any fun a =>
              a.meal_plan_id == p.id && a.member_id == member_id)) := by
        rw [List.mem_insertionSort]
        rw [List.mem_filter]
        refine ⟨hq, ?_⟩
        simp only [Bool.and_eq_true, decide_eq_true_eq, List.any_eq_true,
          beq_iff_eq]
        obtain ⟨a, ha, h1, h2⟩ := hqass
        exact ⟨hqd, a, ha, h1, h2⟩
      rw [hl] at hqmem
      rcases List.mem_cons.mp hqmem with heq | htail
      · rw [heq]
      · have hsort := List.sorted_insertionSort createdRel
          (db.plans.filter fun p => decide (p.applied_on = target_date) &&
            (db.assignments.any fun a =>
              a.meal_plan_id == p.id && a.member_id == member_id))
        rw [hl] at hsort
        exact (List.sorted_cons.mp hsort).1 q htail
    · rw [hrec2, toDict_applies]
      exact List.sorted_insertionSort _ _
    · intro x
      rw [hrec2, toDict_applies, List.mem_insertionSort]
      constructor
      · intro hx
        obtain ⟨a, ha, rfl⟩ := List.mem_map.mp hx
        have ha2 := List.mem_filter.mp ha
        exact ⟨a, ha2.1, by simpa using ha2.2, rfl⟩
      · rintro ⟨a, ha, h1, rfl⟩
        exact List.mem_map.mpr ⟨a, List.mem_filter.mpr
          ⟨ha, by simpa using h1⟩, rfl⟩
    · rw [hrec2, toDict_other]
  · intro hnone
    have hfil : (db.plans.filter fun p =>
        decide (p.applied_on = target_date) &&
        (db.assignments.any fun a =>
          a.meal_plan_id == p.id && a.member_id == member_id)) = [] := by
      rw [List.filter_eq_nil_iff]
      intro p hp hcond
      simp only [Bool.and_eq_true, decide_eq_true_eq, List.any_eq_true,
        beq_iff_eq] at hcond
      obtain ⟨hd, a, ha, h1, h2⟩ := hcond
      exact hnone p hp hd a ha h1 h2
    unfold get_for_member_and_date
    simp only []
    rw [hfil]
    rfl

/-- Witness for C9: in the shared state, member 1's plan for date 5 is
plan 100 with members `[1, 2]` and other member `[2]`. -/
theorem get_most_recent_witness :
    ∃ p ∈ exSharedDB.plans, p.applied_on = 5 ∧
      (∃ a ∈ exSharedDB.assignments, a.meal_plan_id = p.id ∧
        a.member_id = 1) ∧
      (∀ q ∈ exSharedDB.plans, q.applied_on = 5 →
        (∃ a ∈ exSharedDB.assignments, a.meal_plan_id = q.id ∧
          a.member_id = 1) →
        q.created_at ≤ p.created_at) ∧
      (PlanRecord.mk 100 10 5 none none 1 2 3 none 0 [1, 2] [2]) =
        p.toDict (planAssignments exSharedDB p.id) (some 1) ∧
      (PlanRecord.mk 100 10 5 none none 1 2 3 none 0 [1, 2]
        [2]).applies_to_member_ids.Sorted (· ≤ ·) ∧
      (∀ x, x ∈ (PlanRecord.mk 100 10 5 none none 1 2 3 none 0 [1, 2]
          [2]).applies_to_member_ids ↔
        ∃ a ∈ exSharedDB.assignments, a.meal_plan_id = p.id ∧
          a.member_id = x) ∧
      (PlanRecord.mk 100 10 5 none none 1 2 3 none 0 [1, 2]
        [2]).other_member_ids =
        (PlanRecord.mk 100 10 5 none none 1 2 3 none 0 [1, 2]
          [2]).applies_to_member_ids.filter (fun mid => mid != 1) :=
  (get_most_recent exSharedDB 1 5).1
    (PlanRecord.mk 100 10 5 none none 1 2 3 none 0 [1, 2] [2]) (by rfl)

end WiseFood

namespace WiseFood

variable {α : Type}

/-! ### C2: idempotent re-store -/

/-- A state in which member 2 (not a target) already holds plan 100 with
the content of `exSpecA` on date 5. -/
def exOtherMemberDB : DB Nat :=
  ⟨[⟨1, 10⟩, ⟨2, 10⟩], [⟨100, 10, 5, none, none, 1, 2, 3, none, 0⟩],
    [⟨50, 100, 2⟩]⟩

/-- The state after the first store of `exSpecA` for member 1 on date 5 in
`exOtherMemberDB`: a second content-identical plan row 200 exists. -/
def exAfterFirstStoreDB : DB Nat :=
  ⟨[⟨1, 10⟩, ⟨2, 10⟩],
    [⟨100, 10, 5, none, none, 1, 2, 3, none, 0⟩,
      ⟨200, 10, 5, none, none, 1, 2, 3, none, 7⟩],
    [⟨50, 100, 2⟩, ⟨201, 200, 1⟩]⟩

/-- C2 as frozen is false: starting from `exOtherMemberDB` — a state with
no plan for the single target member 1 on date 5, as the claim requires —
two identical calls return the same plan id and the second creates no
row, but afterward two MealPlan rows with that content exist for
household 10 and date 5 (plan 100 of the other member and the new plan
200), not exactly one. -/
theorem store_idempotence_counterexample :
    (∀ a ∈ exOtherMemberDB.assignments, a.member_id ∈ targetsOf 1 [] →
      ∀ p ∈ exOtherMemberDB.plans, p.id = a.meal_plan_id →
        p.applied_on ≠ 5) ∧
    store_for_members exOtherMemberDB 5 7 200 1 5 exSpecA [] =
      .ok (⟨200, 10, 5, none, none, 1, 2, 3, none, 7, [1], []⟩,
        exAfterFirstStoreDB) ∧
    store_for_members exAfterFirstStoreDB 5 8 300 1 5 exSpecA [] =
      .ok (⟨200, 10, 5, none, none, 1, 2, 3, none, 7, [1], []⟩,
        exAfterFirstStoreDB) ∧
    (exAfterFirstStoreDB.plans.filter fun p => p.household_id == 10 &&
      p.applied_on == 5 && matchesIncomingPlan p exSpecA).length = 2 :=
  ⟨by decide, by rfl, by rfl, by decide⟩

/-- C2 (amended): calling `store_for_members` twice with identical
arguments, starting from a state with no plan for the target members on
that date and no content-matching MealPlan row for the household and
date, returns the same plan id both times, the second call changes
nothing, and exactly one MealPlan row with that content exists for the
household and date afterward.  (`fb1` fresh models `uuid4`.) -/
theorem store_idempotent [DecidableEq α] (db : DB α)
    (today1 now1 fb1 today2 now2 fb2 req d : Nat) (spec : MealPlanSpec α)
    (adds : List Nat) (members : List Member) (hh : Nat)
    (hdate1 : ¬ d < today1) (hdate2 : ¬ d < today2)
    (hmem : getMembersInSameHousehold db (targetsOf req adds) = .ok members)
    (hhh : hh = (members.headD ⟨0, 0⟩).household_id)
    (hclean : ∀ a ∈ db.assignments, a.member_id ∈ targetsOf req adds →
      ∀ p ∈ db.plans, p.id = a.meal_plan_id → p.applied_on ≠ d)
    (hnomatch : ∀ p ∈ db.plans, p.household_id = hh → p.applied_on = d →
      matchesIncomingPlan p spec = false)
    (hfreshp : ∀ p ∈ db.plans, p.id ≠ fb1) :
    ∃ r1 db1 r2 db2,
      store_for_members db today1 now1 fb1 req d spec adds = .ok (r1, db1) ∧
      store_for_members db1 today2 now2 fb2 req d spec adds = .ok (r2, db2) ∧
      r2.id = r1.id ∧ db2 = db1 ∧
      (db1.plans.filter fun p => p.household_id == hh && p.applied_on == d &&
        matchesIncomingPlan p spec).length = 1 ∧
      db2.plans = db1.plans := by
  subst hhh
  have hrows1 : existingRows db (members.headD ⟨0, 0⟩).household_id d
      (targetsOf req adds) = [] := by
    rw [List.eq_nil_iff_forall_not_mem]
    intro r hr
    obtain ⟨a, ha, p, hp, h1, h2, h3, h4, -⟩ := mem_existingRows.mp hr
    exact (hclean a ha h4 p hp h1) h3
  have hfind : ((db.plans ++ [(⟨fb1, (members.headD ⟨0, 0⟩).household_id, d,
      spec.id, spec.created_at, spec.breakfast, spec.lunch, spec.dinner,
      spec.reasoning, now1⟩ : MealPlan α)]).find? fun p => p.id == fb1) =
      some ⟨fb1, (members.headD ⟨0, 0⟩).household_id, d, spec.id,
        spec.created_at, spec.breakfast, spec.lunch, spec.dinner,
        spec.reasoning, now1⟩ := by
    have h0 : db.plans.find? (fun p => p.id == fb1) = none :=
      List.find?_eq_none.mpr fun p hp => by simpa using hfreshp p hp
    rw [List.find?_append, h0, Option.none_or]
    exact List.find?_cons_of_pos _ (by simp)
  have h1 : store_for_members db today1 now1 fb1 req d spec adds =
      .ok ((⟨fb1, (members.headD ⟨0, 0⟩).household_id, d, spec.id,
          spec.created_at, spec.breakfast, spec.lunch, spec.dinner,
          spec.reasoning, now1⟩ : MealPlan α).toDict
          (planAssignments ⟨db.members,
            db.plans ++ [⟨fb1, (members.headD ⟨0, 0⟩).household_id, d,
              spec.id, spec.created_at, spec.breakfast, spec.lunch,
              spec.dinner, spec.reasoning, now1⟩],
            db.assignments ++ ((targetsOf req adds).enum.map fun im =>
              ⟨fb1 + 1 + im.1, fb1, im.2⟩)⟩ fb1) (some req),
        ⟨db.members,
          db.plans ++ [⟨fb1, (members.headD ⟨0, 0⟩).household_id, d,
            spec.id, spec.created_at, spec.breakfast, spec.lunch,
            spec.dinner, spec.reasoning, now1⟩],
          db.assignments ++ ((targetsOf req adds).enum.map fun im =>
            ⟨fb1 + 1 + im.1, fb1, im.2⟩)⟩) := by
    unfold store_for_members
    rw [if_neg hdate1]
    simp only []
    rw [hmem]
    dsimp only
    rw [hrows1, if_neg (fun hne => hne rfl)]
    unfold storeWrite
    rw [show pickReusablePlanId req (matchingMemberPlanIds spec
      ([] : List (Nat × MealPlan α))) = none from rfl]
    dsimp only
    rw [hfind]
  obtain ⟨P, hPdef⟩ : ∃ x : MealPlan α, x = ⟨fb1,
      (members.headD ⟨0, 0⟩).household_id, d, spec.id, spec.created_at,
      spec.breakfast, spec.lunch, spec.dinner, spec.reasoning, now1⟩ :=
    ⟨_, rfl⟩
  obtain ⟨A, hAdef⟩ : ∃ x : List MealPlanMember,
      x = (targetsOf req adds).enum.map fun im =>
        ⟨fb1 + 1 + im.1, fb1, im.2⟩ :=
    ⟨_, rfl⟩
  obtain ⟨db1, hdb1def⟩ : ∃ x : DB α,
      x = ⟨db.members, db.plans ++ [P], db.assignments ++ A⟩ :=
    ⟨_, rfl⟩
  have hPid : P.id = fb1 := by rw [hPdef]
  have hPhh : P.household_id = (members.headD ⟨0, 0⟩).household_id := by
    rw [hPdef]
  have hPd : P.applied_on = d := by rw [hPdef]
  have h1v : store_for_members db today1 now1 fb1 req d spec adds =
      .ok (P.toDict (planAssignments db1 fb1) (some req), db1) := by
    rw [h1, hdb1def, hPdef, hAdef]
  have hdb1assign : db1.assignments = db.assignments ++ A := by
    rw [hdb1def]
  have hdb1plans : db1.plans = db.plans ++ [P] := by
    rw [hdb1def]
  have hdb1members : db1.members = db.members := by
    rw [hdb1def]
  have hfind1 : db1.plans.find? (fun p => p.id == fb1) = some P := by
    rw [hdb1plans, hPdef]
    exact hfind
  have hrowchar : ∀ r ∈ existingRows db1
      (members.headD ⟨0, 0⟩).household_id d (targetsOf req adds),
      r.2 = P ∧ r.1 ∈ targetsOf req adds := by
    intro r hr
    obtain ⟨a, ha, p, hp, hid, hph, hap, hmt, rfl⟩ := mem_existingRows.mp hr
    rw [hdb1assign] at ha
    rw [hdb1plans] at hp
    refine ⟨?_, hmt⟩
    rcases List.mem_append.mp ha with haold | hanew
    · rcases List.mem_append.mp hp with hpold | hpnew
      · exact absurd hap ((hclean a haold hmt) p hpold hid)
      · exact List.mem_singleton.mp hpnew
    · rcases List.mem_append.mp hp with hpold | hpnew
      · rw [hAdef] at hanew
        obtain ⟨im, him, rfl⟩ := List.mem_map.mp hanew
        exact absurd (by simpa using hid) (hfreshp p hpold)
      · exact List.mem_singleton.mp hpnew
  have hrowmem : ∀ m ∈ targetsOf req adds,
      ((m, P) : Nat × MealPlan α) ∈ existingRows db1
        (members.headD ⟨0, 0⟩).household_id d (targetsOf req adds) := by
    intro m hm
    have hmm : m ∈ (targetsOf req adds).enum.map Prod.snd := by
      rw [List.enum_map_snd]
      exact hm
    obtain ⟨im, him, hims⟩ := List.mem_map.mp hmm
    apply mem_existingRows.mpr
    refine ⟨⟨fb1 + 1 + im.1, fb1, m⟩, ?_, P, ?_, hPid, hPhh, hPd, hm, rfl⟩
    · rw [hdb1assign]
      apply List.mem_append_right
      rw [hAdef]
      exact List.mem_map.mpr ⟨im, him, by rw [hims]⟩
    · rw [hdb1plans]
      exact List.mem_append_right _ (List.mem_singleton_self _)
  have hmatchP : matchesIncomingPlan P spec = true := by
    rw [hPdef]
    simp [matchesIncomingPlan]
  have hconf2 : conflictingMemberIds spec (existingRows db1
      (members.headD ⟨0, 0⟩).household_id d (targetsOf req adds)) = [] := by
    apply conflictingMemberIds_eq_nil.mpr
    intro r hr
    rw [(hrowchar r hr).1]
    exact hmatchP
  have hunass : membersWithoutAssignments (targetsOf req adds)
      (existingRows db1 (members.headD ⟨0, 0⟩).household_id d
        (targetsOf req adds)) = [] := by
    unfold membersWithoutAssignments
    rw [sortedDedup_eq_nil, List.filter_eq_nil_iff]
    intro m hm hcond
    have hany : ((existingRows db1 (members.headD ⟨0, 0⟩).household_id d
        (targetsOf req adds)).any fun r => r.1 == m) = true :=
      List.any_eq_true.mpr ⟨(m, P), hrowmem m hm, by simp⟩
    rw [hany] at hcond
    exact absurd hcond (by simp)
  have hpick2 : pickReusablePlanId req (matchingMemberPlanIds spec
      (existingRows db1 (members.headD ⟨0, 0⟩).household_id d
        (targetsOf req adds))) = some fb1 := by
    rw [pickReusablePlanId_spec]
    obtain ⟨rr0, t0, ht0⟩ : ∃ rr0 t0,
        ((existingRows db1 (members.headD ⟨0, 0⟩).household_id d
          (targetsOf req adds)).filter fun r =>
            matchesIncomingPlan r.2 spec).filter (fun r => r.1 == req) =
          rr0 :: t0 := by
      cases hc : ((existingRows db1 (members.headD ⟨0, 0⟩).household_id d
          (targetsOf req adds)).filter fun r =>
            matchesIncomingPlan r.2 spec).filter (fun r => r.1 == req) with
      | nil =>
        have hin : ((req, P) : Nat × MealPlan α) ∈
            ((existingRows db1 (members.headD ⟨0, 0⟩).household_id d
              (targetsOf req adds)).filter fun r =>
                matchesIncomingPlan r.2 spec).filter
              (fun r => r.1 == req) := by
          rw [List.mem_filter, List.mem_filter]
          exact ⟨⟨hrowmem req (mem_targetsOf.mpr (Or.inl rfl)), hmatchP⟩,
            by simp⟩
        rw [hc] at hin
        exact absurd hin (List.not_mem_nil _)
      | cons a t => exact ⟨a, t, rfl⟩
    rw [ht0, List.map_cons, List.head?_cons]
    have hrr0 : rr0.2 = P := by
      have hmem0 : rr0 ∈ rr0 :: t0 := List.mem_cons_self _ _
      rw [← ht0] at hmem0
      have hm1 := List.mem_filter.mp hmem0
      have hm2 := List.mem_filter.mp hm1.1
      exact (hrowchar rr0 hm2.1).1
    rw [hrr0, hPid]
  have hmem1 : getMembersInSameHousehold db1 (targetsOf req adds) =
      .ok members := by
    rw [hdb1def]
    exact hmem
  have h2 : store_for_members db1 today2 now2 fb2 req d spec adds =
      .ok (P.toDict (planAssignments db1 fb1) (some req), db1) := by
    unfold store_for_members
    rw [if_neg hdate2]
    simp only []
    rw [hmem1]
    dsimp only
    rw [if_neg (fun hne => hne hconf2)]
    unfold storeWrite
    rw [hpick2]
    dsimp only
    rw [hunass]
    simp only [List.enum_nil, List.map_nil, List.append_nil]
    rw [hfind1]
  refine ⟨P.toDict (planAssignments db1 fb1) (some req), db1,
    P.toDict (planAssignments db1 fb1) (some req), db1,
    h1v, h2, rfl, rfl, ?_, rfl⟩
  rw [hdb1plans, List.filter_append]
  have hz : (db.plans.filter fun p =>
      p.household_id == (members.headD ⟨0, 0⟩).household_id &&
      p.applied_on == d && matchesIncomingPlan p spec) = [] := by
    rw [List.filter_eq_nil_iff]
    intro p hp hcond
    simp only [Bool.and_eq_true, beq_iff_eq] at hcond
    have := hnomatch p hp hcond.1.1 hcond.1.2
    rw [this] at hcond
    exact absurd hcond.2 (by simp)
  rw [hz]
  have hone : ([P].filter fun p =>
      p.household_id == (members.headD ⟨0, 0⟩).household_id &&
      p.applied_on == d && matchesIncomingPlan p spec) = [P] := by
    rw [hPdef]
    simp [matchesIncomingPlan]
  rw [hone]
  rfl

end WiseFood

namespace WiseFood

/-- Witness for the amended C2: two identical stores for member 1 on an
empty state agree on the plan id, the second changes nothing, and exactly
one content row exists. -/
theorem store_idempotent_witness :
    ∃ r1 db1 r2 db2,
      store_for_members exEmptyDB 5 7 200 1 5 exSpecA [] = .ok (r1, db1) ∧
      store_for_members db1 5 8 300 1 5 exSpecA [] = .ok (r2, db2) ∧
      r2.id = r1.id ∧ db2 = db1 ∧
      (db1.plans.filter fun p => p.household_id == 10 && p.applied_on == 5 &&
        matchesIncomingPlan p exSpecA).length = 1 ∧
      db2.plans = db1.plans :=
  store_idempotent exEmptyDB 5 7 200 5 8 300 1 5 exSpecA [] [⟨1, 10⟩] 10
    (by decide) (by decide) (by rfl) (by rfl) (by decide) (by decide)
    (by decide)

end WiseFood
